import Mathlib

/-!
CSlim statement execution core.

A shallow embedding of `CSlim/StatementExecutor.c`, `CSlim/ListExecutor.c`,
`CSlim/SlimUtil.c` and `Main/ExceptionsExample.c`, followed by theorems about it.

Conventions of the embedding:

* a C string is the list of its characters (`Str`); `snprintf(buf, n, ...)` keeps the
  first `n - 1` characters of the formatted text and `%.32s` the first 32 of its argument;
* the executor is passed and returned explicitly; functions that mutate their argument
  list return the list as well;
* fixture code (constructors, destructors, methods) acts on an abstract fixture heap `σ`;
* `replaceStringFrom` and `replaceSymbols` need not terminate, so they take a fuel bound
  and return `none` when it runs out; everything that calls them inherits the `Option`;
* the executor carries a log `invoked` of the capability invocations it has made; the
  log is not in the C structure and no function reads it;
* `replaceStringFromLog` is `replaceStringFrom` with a log of its replacements, and
  `specSubstituteFrom` is the scan as the specification words it, to compare the two;
* lengths are natural numbers, except in `bufferLength`, which computes the buffer size of
  `replaceStringFrom` in the `int` variables of the source, taken to have 32 bits (`toInt`).
-/

set_option autoImplicit false

namespace CSlim

/-! ## Strings and lists -/

/-- A C string, as the list of the characters before its terminating NUL. -/
abbrev Str := List Char

/-- Modelled from the spec: SlimList.c is absent from the sources. A list is an ordered
sequence of string tokens; a nested list sits in its parent as its serialized text. -/
abbrev SlimList := List Str

/-- Modelled from the spec: the list codec (SlimListSerializer.c, SlimListDeserializer.c),
`SlimList_ToString` and the value `SlimList_GetStringAt` yields for an index past the end
are absent from the sources; they are parameters of the embedding. `Deserialize` returns
`none` where the C function returns NULL (the text is not a well-formed list). -/
structure SlimLib where
  Deserialize : Str → Option SlimList
  Serialize : SlimList → Str
  ToString : SlimList → Str
  nullString : Str

/-- Modelled from the spec: `SlimList_GetLength`, the number of tokens. -/
def SlimList_GetLength (self : SlimList) : Nat := self.length

/-- Modelled from the spec: `SlimList_GetStringAt`, the token at `index`. -/
def SlimList_GetStringAt (lib : SlimLib) (self : SlimList) (index : Nat) : Str :=
  self.getD index lib.nullString

/-- Modelled from the spec: `SlimList_GetTailAt`, a fresh list of the tokens from `index` on. -/
def SlimList_GetTailAt (self : SlimList) (index : Nat) : SlimList := self.drop index

/-- Modelled from the spec: `SlimList_ReplaceAt`, overwrite the token at `index`. -/
def SlimList_ReplaceAt (self : SlimList) (index : Nat) (replacement : Str) : SlimList :=
  self.set index replacement

/-- The function `buyString` of SlimUtil.c: a heap copy of the string. -/
def buyString (string : Str) : Str := string

/-- The text `snprintf(buffer, size, ...)` leaves in the buffer, given the full formatted text. -/
def snprintf (size : Nat) (formatted : Str) : Str := formatted.take (size - 1)

/-- The conversion `%.32s`. -/
def precision32 (s : Str) : Str := s.take 32

/-- The conversion `%d` of a list length. -/
def decimal (n : Nat) : Str := Nat.toDigits 10 n

/-- The sentinel every exception result starts with. -/
def exceptionTag : Str := "__EXCEPTION__:message:<<".toList

/-! ## Symbol table and substitution -/

/-- Modelled from the spec: SymbolTable.c is absent from the sources. The table is a mapping
from symbol name to string value. -/
abbrev SymbolTable := Str → Option Str

/-- Modelled from the spec: `SymbolTable_Create`, the table with no binding. -/
def SymbolTable_Create : SymbolTable := fun _ => none

/-- Modelled from the spec: `SymbolTable_FindSymbol(table, name, length)` resolves the name made
of the first `length` characters at `name`; `none` is the C NULL, "not found". -/
def SymbolTable_FindSymbol (table : SymbolTable) (name : Str) (length : Nat) : Option Str :=
  table (name.take length)

/-- Modelled from the spec: `SymbolTable_SetSymbol` stores a copy of `value` under `symbol`,
overwriting any prior binding. -/
def SymbolTable_SetSymbol (table : SymbolTable) (symbol value : Str) : SymbolTable :=
  fun name => if name = symbol then some value else table name

/-- The C library test `isalnum` in the C locale. -/
def isalnum (c : Char) : Bool := c.isAlphanum

/-- The function `lengthOfSymbol`: the length of the alphanumeric run at `start`. -/
def lengthOfSymbol : Str → Nat
  | [] => 0
  | c :: rest => if isalnum c then lengthOfSymbol rest + 1 else 0

/-- The C library search `strpbrk(s, accept)`, as the offset of the first character of `s`
that occurs in `accept`; `none` is NULL. -/
def strpbrk (accept : Str) : Str → Option Nat
  | [] => none
  | c :: rest => if c ∈ accept then some 0 else (strpbrk accept rest).map (· + 1)

/-- The function `replaceStringFrom`. The pointer `from` into `string` is the offset `start`;
`dollarSign` is an offset into `string` as well. -/
def replaceStringFrom : Nat → SymbolTable → Str → Nat → Option Str
  | 0, _, _, _ => none
  | fuel + 1, symbolTable, string, start =>
    match strpbrk "$".toList (string.drop start) with
    | some offset =>
      let dollarSign := start + offset
      let length := lengthOfSymbol (string.drop (dollarSign + 1))
      match SymbolTable_FindSymbol symbolTable (string.drop (dollarSign + 1)) length with
      | some symbolValue =>
        let newString := string.take dollarSign ++ symbolValue ++ string.drop (dollarSign + 1 + length)
        replaceStringFrom fuel symbolTable newString 0
      | none =>
        if string.drop (dollarSign + 1) = [] then some (buyString string)
        else replaceStringFrom fuel symbolTable string (dollarSign + 1)
    | none => some (buyString string)

/-- The function `replaceString`. -/
def replaceString (fuel : Nat) (symbolTable : SymbolTable) (string : Str) : Option Str :=
  replaceStringFrom fuel symbolTable string 0

/-- The function `replaceSymbols`: the loop over the indices of `list`, rewriting each slot. -/
def replaceSymbols : Nat → SlimLib → SymbolTable → SlimList → Option SlimList
  | 0, _, _, _ => none
  | fuel + 1, lib, symbolTable, list =>
    (List.range (SlimList_GetLength list)).foldlM
      (fun (list : SlimList) (i : Nat) =>
        let string := SlimList_GetStringAt lib list i
        match lib.Deserialize string with
        | none =>
          (replaceString fuel symbolTable string).map
            (fun replacedString => SlimList_ReplaceAt list i replacedString)
        | some embeddedList =>
          (replaceSymbols fuel lib symbolTable embeddedList).map
            (fun replacedList => SlimList_ReplaceAt list i (lib.Serialize replacedList)))
      list

/-! ## Fixtures, instances and the statement executor -/

/-- A non-null object pointer returned by a fixture constructor. -/
abbrev Handle := Nat

/-- What a call of a fixture constructor does: the pointer it returns (`none` is NULL), the
message it passed to `StatementExecutor_ConstructorError` if it called it, and the fixture
heap it leaves. -/
structure Construction (σ : Type) where
  instancePtr : Option Handle
  constructorError : Option Str
  heap : σ

/-- The type `Constructor` of fixture constructors. -/
abbrev Constructor (σ : Type) := σ → SlimList → Construction σ

/-- The type `Destructor` of fixture destructors. -/
abbrev Destructor (σ : Type) := σ → Option Handle → σ

/-- The type `Method` of fixture methods: the returned string and the heap left. -/
abbrev Method (σ : Type) := σ → Option Handle → SlimList → Str × σ

/-- The structure `MethodNode`; the `next` link is the tail of the list holding the node. -/
structure MethodNode (σ : Type) where
  name : Str
  method : Method σ

/-- The structure `FixtureNode`; the `next` link is the tail of the list holding the node. -/
structure FixtureNode (σ : Type) where
  constructor : Constructor σ
  destructor : Destructor σ
  methods : List (MethodNode σ)
  name : Str

/-- The structure `InstanceNode`. Its C field `instance` is `instancePtr`. The pointer `fixture`
is held as the name of the fixture node it points to: `StatementExecutor_RegisterFixture` never
links a second node under a name already present, so the name identifies the node. -/
structure InstanceNode where
  name : Str
  instancePtr : Option Handle
  fixture : Str
deriving DecidableEq

/-- An entry of the invocation log. -/
inductive Invocation where
  | construct (className : Str) (args : SlimList)
  | method (className methodName : Str) (instancePtr : Option Handle) (args : SlimList)
  | destruct (className : Str) (instancePtr : Option Handle)
deriving DecidableEq

/-- The structure `StatementExecutor`, with the fixture heap and the invocation log. -/
structure StatementExecutor (σ : Type) where
  fixtures : List (FixtureNode σ)
  instances : List InstanceNode
  symbolTable : SymbolTable
  message : Str
  userMessage : Option Str
  heap : σ
  invoked : List Invocation

/-- The function `StatementExecutor_Create`, on a given fixture heap. -/
def StatementExecutor_Create {σ : Type} (heap : σ) : StatementExecutor σ :=
  { fixtures := [], instances := [], symbolTable := SymbolTable_Create, message := [],
    userMessage := none, heap := heap, invoked := [] }

/-- The function `GetInstanceNode`: the first node of the list with that name. -/
def GetInstanceNode {σ : Type} (executor : StatementExecutor σ) (instanceName : Str) :
    Option InstanceNode :=
  executor.instances.find? (fun instanceNode => decide (instanceNode.name = instanceName))

/-- The function `findFixture`: the first node of the list with that name. -/
def findFixture {σ : Type} (executor : StatementExecutor σ) (className : Str) :
    Option (FixtureNode σ) :=
  executor.fixtures.find? (fun fixtureNode => decide (fixtureNode.name = className))

/-- The search loop of `StatementExecutor_Call` over a method list. -/
def findMethod {σ : Type} (methods : List (MethodNode σ)) (methodName : Str) :
    Option (MethodNode σ) :=
  methods.find? (fun node => decide (methodName = node.name))

/-- A write through a fixture pointer: `update` applied to the first node named `className`. -/
def modifyFixture {σ : Type} (update : FixtureNode σ → FixtureNode σ) (className : Str) :
    List (FixtureNode σ) → List (FixtureNode σ)
  | [] => []
  | fixtureNode :: rest =>
    if fixtureNode.name = className then update fixtureNode :: rest
    else fixtureNode :: modifyFixture update className rest

/-- The function `StatementExecutor_ConstructorError`. -/
def StatementExecutor_ConstructorError {σ : Type} (executor : StatementExecutor σ)
    (message : Str) : StatementExecutor σ :=
  { executor with userMessage := some message }

/-- The function `StatementExecutor_SetSymbol`. -/
def StatementExecutor_SetSymbol {σ : Type} (self : StatementExecutor σ) (symbol value : Str) :
    StatementExecutor σ :=
  { self with symbolTable := SymbolTable_SetSymbol self.symbolTable symbol value }

/-- The function `StatementExecutor_FixtureError`. -/
def StatementExecutor_FixtureError (message : Str) : Str :=
  snprintf 128 (exceptionTag ++ message.take 100 ++ ".>>".toList)

/-- The function `Null_Create`. -/
def Null_Create {σ : Type} : Constructor σ :=
  fun heap _ => { instancePtr := none, constructorError := none, heap := heap }

/-- The function `Null_Destroy`. -/
def Null_Destroy {σ : Type} : Destructor σ := fun heap _ => heap

/-- The function `StatementExecutor_Make`. It returns the result string, the executor and the
argument list, which `replaceSymbols` rewrites in place. The instance node is linked at the
head of `instances` as soon as the fixture is found; its `instance` field receives whatever
the constructor returns, NULL included. -/
def StatementExecutor_Make {σ : Type} (fuel : Nat) (lib : SlimLib)
    (executor : StatementExecutor σ) (instanceName className : Str) (args : SlimList) :
    Option (Str × StatementExecutor σ × SlimList) :=
  match findFixture executor className with
  | some fixtureNode =>
    match replaceSymbols fuel lib executor.symbolTable args with
    | none => none
    | some args =>
      let executor := { executor with userMessage := none }
      let made := fixtureNode.constructor executor.heap args
      let executor := { executor with
        heap := made.heap
        invoked := executor.invoked ++ [Invocation.construct fixtureNode.name args] }
      let executor := match made.constructorError with
        | some message => StatementExecutor_ConstructorError executor message
        | none => executor
      let instanceNode : InstanceNode :=
        { name := instanceName, instancePtr := made.instancePtr, fixture := fixtureNode.name }
      let executor := { executor with instances := instanceNode :: executor.instances }
      if instanceNode.instancePtr ≠ none then
        some ("OK".toList, executor, args)
      else
        let message := snprintf 120
          (exceptionTag ++ "COULD_NOT_INVOKE_CONSTRUCTOR ".toList ++ precision32 className
            ++ " ".toList ++ precision32 (executor.userMessage.getD []) ++ ".>>".toList)
        some (message, { executor with message := message }, args)
  | none =>
    let message := snprintf 120
      (exceptionTag ++ "NO_CLASS ".toList ++ precision32 className ++ ".>>".toList)
    some (message, { executor with message := message }, args)

/-- The function `StatementExecutor_Call`. It returns the result string, the executor and the
argument list. The `none` of the second match stands for a fixture pointer that points to no
node, which `StatementExecutor_Make` never stores. -/
def StatementExecutor_Call {σ : Type} (fuel : Nat) (lib : SlimLib)
    (executor : StatementExecutor σ) (instanceName methodName : Str) (args : SlimList) :
    Option (Str × StatementExecutor σ × SlimList) :=
  match GetInstanceNode executor instanceName with
  | some instanceNode =>
    match findFixture executor instanceNode.fixture with
    | none => none
    | some fixture =>
      match findMethod fixture.methods methodName with
      | some node =>
        match replaceSymbols fuel lib executor.symbolTable args with
        | none => none
        | some args =>
          let retval := node.method executor.heap instanceNode.instancePtr args
          some (retval.1,
            { executor with
              heap := retval.2
              invoked := executor.invoked ++
                [Invocation.method fixture.name node.name instanceNode.instancePtr args] },
            args)
      | none =>
        let message := snprintf 120
          (exceptionTag ++ "NO_METHOD_IN_CLASS ".toList ++ precision32 methodName ++ "[".toList
            ++ decimal (SlimList_GetLength args) ++ "] ".toList ++ precision32 fixture.name
            ++ ".>>".toList)
        some (message, { executor with message := message }, args)
  | none =>
    let message := snprintf 120
      (exceptionTag ++ "NO_INSTANCE ".toList ++ precision32 instanceName ++ ".>>".toList)
    some (message, { executor with message := message }, args)

/-- The function `StatementExecutor_Instance`. -/
def StatementExecutor_Instance {σ : Type} (executor : StatementExecutor σ) (instanceName : Str) :
    Option Handle :=
  match GetInstanceNode executor instanceName with
  | some instanceNode => instanceNode.instancePtr
  | none => none

/-- The function `StatementExecutor_RegisterFixture`. -/
def StatementExecutor_RegisterFixture {σ : Type} (executor : StatementExecutor σ)
    (className : Str) (constructor : Constructor σ) (destructor : Destructor σ) :
    StatementExecutor σ :=
  let executor :=
    match findFixture executor className with
    | none =>
      { executor with
        fixtures := { name := className, methods := [], constructor := constructor,
                      destructor := destructor } :: executor.fixtures }
    | some _ => executor
  { executor with
    fixtures := modifyFixture
      (fun fixtureNode => { fixtureNode with constructor := constructor, destructor := destructor })
      className executor.fixtures }

/-- The function `StatementExecutor_RegisterMethod`. -/
def StatementExecutor_RegisterMethod {σ : Type} (executor : StatementExecutor σ)
    (className methodName : Str) (method : Method σ) : StatementExecutor σ :=
  let executor :=
    match findFixture executor className with
    | none => StatementExecutor_RegisterFixture executor className Null_Create Null_Destroy
    | some _ => executor
  { executor with
    fixtures := modifyFixture
      (fun fixtureNode =>
        { fixtureNode with
          methods := { name := methodName, method := method } :: fixtureNode.methods })
      className executor.fixtures }

/-- The loop of `destroyInstances`: every node's fixture destructor on the node's pointer, in
list order. A node whose fixture pointer points to no node is skipped. -/
def destroyInstances {σ : Type} (executor : StatementExecutor σ) :
    List InstanceNode → σ × List Invocation → σ × List Invocation
  | [], state => state
  | instanceNode :: rest, state =>
    match findFixture executor instanceNode.fixture with
    | some fixture =>
      destroyInstances executor rest
        (fixture.destructor state.1 instanceNode.instancePtr,
          state.2 ++ [Invocation.destruct fixture.name instanceNode.instancePtr])
    | none => destroyInstances executor rest state

/-- The function `StatementExecutor_Destroy`: the fixture heap and the log it leaves. -/
def StatementExecutor_Destroy {σ : Type} (self : StatementExecutor σ) : σ × List Invocation :=
  destroyInstances self self.instances (self.heap, self.invoked)

/-! ## The list executor -/

/-- The structure `ListExecutor`. -/
structure ListExecutor (σ : Type) where
  executor : StatementExecutor σ

/-- The function `ListExecutor_Create`. -/
def ListExecutor_Create {σ : Type} (executor : StatementExecutor σ) : ListExecutor σ :=
  { executor := executor }

/-- The function `AddResult`: the pair of `id` and `result`, appended to the result list. -/
def AddResult (list : List SlimList) (id result : Str) : List SlimList :=
  list ++ [[id, result]]

/-- The function `InvalidCommand`. -/
def InvalidCommand {σ : Type} (lib : SlimLib) (_self : ListExecutor σ) (instruction : SlimList) :
    Str :=
  let id := SlimList_GetStringAt lib instruction 0
  let command := SlimList_GetStringAt lib instruction 1
  let msg := snprintf 128
    (exceptionTag ++ "INVALID_STATEMENT: [\"".toList ++ id ++ "\", \"".toList ++ command
      ++ "\"].>>".toList)
  buyString msg

/-- The function `MalformedInstruction`. -/
def MalformedInstruction {σ : Type} (lib : SlimLib) (_self : ListExecutor σ)
    (instruction : SlimList) : Str :=
  let msg := snprintf 128
    (exceptionTag ++ "MALFORMED_INSTRUCTION ".toList ++ lib.ToString instruction ++ ".>>".toList)
  buyString msg

/-- The function `Import`. -/
def Import {σ : Type} (_self : ListExecutor σ) (_instruction : SlimList) : Str :=
  buyString "OK".toList

/-- The function `Make` of ListExecutor.c. -/
def Make {σ : Type} (fuel : Nat) (lib : SlimLib) (self : ListExecutor σ)
    (instruction : SlimList) : Option (Str × ListExecutor σ) :=
  let instanceName := SlimList_GetStringAt lib instruction 2
  let className := SlimList_GetStringAt lib instruction 3
  let args := SlimList_GetTailAt instruction 4
  match StatementExecutor_Make fuel lib self.executor instanceName className args with
  | none => none
  | some (made, executor, _) => some (buyString made, { self with executor := executor })

/-- The function `Call` of ListExecutor.c. -/
def Call {σ : Type} (fuel : Nat) (lib : SlimLib) (self : ListExecutor σ)
    (instruction : SlimList) : Option (Str × ListExecutor σ) :=
  if SlimList_GetLength instruction < 4 then
    some (MalformedInstruction lib self instruction, self)
  else
    let instanceName := SlimList_GetStringAt lib instruction 2
    let methodName := SlimList_GetStringAt lib instruction 3
    let args := SlimList_GetTailAt instruction 4
    match StatementExecutor_Call fuel lib self.executor instanceName methodName args with
    | none => none
    | some (called, executor, _) => some (buyString called, { self with executor := executor })

/-- The function `CallAndAssign`. -/
def CallAndAssign {σ : Type} (fuel : Nat) (lib : SlimLib) (self : ListExecutor σ)
    (instruction : SlimList) : Option (Str × ListExecutor σ) :=
  if SlimList_GetLength instruction < 5 then
    some (MalformedInstruction lib self instruction, self)
  else
    let symbolName := SlimList_GetStringAt lib instruction 2
    let instanceName := SlimList_GetStringAt lib instruction 3
    let methodName := SlimList_GetStringAt lib instruction 4
    let args := SlimList_GetTailAt instruction 5
    match StatementExecutor_Call fuel lib self.executor instanceName methodName args with
    | none => none
    | some (called, executor, _) =>
      let result := buyString called
      some (result, { self with executor := StatementExecutor_SetSymbol executor symbolName result })

/-- The function `Dispatch`. -/
def Dispatch {σ : Type} (fuel : Nat) (lib : SlimLib) (self : ListExecutor σ)
    (instruction : SlimList) : Option (Str × ListExecutor σ) :=
  let command := SlimList_GetStringAt lib instruction 1
  if command = "import".toList then
    some (Import self instruction, self)
  else if command = "make".toList then
    Make fuel lib self instruction
  else if command = "call".toList then
    Call fuel lib self instruction
  else if command = "callAndAssign".toList then
    CallAndAssign fuel lib self instruction
  else
    some (InvalidCommand lib self instruction, self)

/-- The loop of `ListExecutor_Execute` over the instructions not yet executed, `results` holding
the pairs added so far. -/
def executeLoop {σ : Type} (fuel : Nat) (lib : SlimLib) :
    ListExecutor σ → List SlimList → List SlimList → Option (List SlimList × ListExecutor σ)
  | self, [], results => some (results, self)
  | self, instruction :: rest, results =>
    let id := SlimList_GetStringAt lib instruction 0
    match Dispatch fuel lib self instruction with
    | none => none
    | some (result, self) => executeLoop fuel lib self rest (AddResult results id result)

/-- The function `ListExecutor_Execute`: the result list and the list executor it leaves. -/
def ListExecutor_Execute {σ : Type} (fuel : Nat) (lib : SlimLib) (self : ListExecutor σ)
    (instructions : List SlimList) : Option (List SlimList × ListExecutor σ) :=
  executeLoop fuel lib self instructions []

/-! ## The fixture of ExceptionsExample.c -/

/-- The function `ExceptionsExample_Create`. The fixture heap is the number of objects
allocated so far and `malloc` returns the next one. Modelled from the spec: the macro
`SLIM_CONSTRUCTOR_ERROR` of Fixtures.h is absent; it records the note through
`StatementExecutor_ConstructorError`. -/
def ExceptionsExample_Create : Constructor Nat :=
  fun heap args =>
    if SlimList_GetLength args < 1 then
      { instancePtr := none, constructorError := some "One arg required".toList, heap := heap }
    else
      { instancePtr := some (heap + 1), constructorError := none, heap := heap + 1 }

/-- The function `ExceptionsExample_Destroy`. -/
def ExceptionsExample_Destroy : Destructor Nat := fun heap _ => heap

/-- The method `setTrouble`. Modelled from the spec: the macro `SLIM_EXCEPTION` of Fixtures.h
is absent; it formats a fixture-reported exception with `StatementExecutor_FixtureError`. -/
def setTrouble : Method Nat :=
  fun heap _ _ => (StatementExecutor_FixtureError "You stink".toList, heap)

/-- Modelled from the spec: the macros `CREATE_FIXTURE`, `FUNCTION` and `END` of Fixtures.h are
absent; they define the function that registers the fixture and its methods. -/
def ExceptionsExample_Register (executor : StatementExecutor Nat) : StatementExecutor Nat :=
  StatementExecutor_RegisterMethod
    (StatementExecutor_RegisterFixture executor "ExceptionsExample".toList
      ExceptionsExample_Create ExceptionsExample_Destroy)
    "ExceptionsExample".toList "setTrouble".toList setTrouble

/-- A codec in which no text decodes as a list, for the concrete runs below. -/
def plainLib : SlimLib :=
  { Deserialize := fun _ => none, Serialize := fun _ => [], ToString := fun _ => [],
    nullString := [] }

/-- The executor of the concrete runs: a fresh executor with the ExceptionsExample fixture. -/
def exampleExecutor : StatementExecutor Nat :=
  ExceptionsExample_Register (StatementExecutor_Create 0)

/-- A list of tokens written as string literals. -/
def tokens (literals : List String) : SlimList := literals.map String.toList

/-- A class name of 32 characters. -/
def longClassName : Str := "ClassNameOfThirtyTwoCharacters01".toList

/-- A method name of 32 characters. -/
def longMethodName : Str := "methodNameOfThirtyTwoCharacters1".toList

/-- A fresh executor with the fixture `longClassName`, constructed by
`ExceptionsExample_Create`, and one instance "i" of it. -/
def longNameExecutor : StatementExecutor Nat :=
  ((StatementExecutor_Make 2 plainLib
    (StatementExecutor_RegisterFixture (StatementExecutor_Create 0) longClassName
      ExceptionsExample_Create ExceptionsExample_Destroy)
    "i".toList longClassName (tokens ["a"])).map (fun r => r.2.1)).getD
    (StatementExecutor_Create 0)

/-- The example executor after a successful make of the instance "inst" of ExceptionsExample. -/
def instanceExecutor : StatementExecutor Nat :=
  ((StatementExecutor_Make 2 plainLib exampleExecutor "inst".toList "ExceptionsExample".toList
    (tokens ["ok"])).map (fun r => r.2.1)).getD exampleExecutor

/-- A method that returns "42". -/
def fortyTwo : Method Nat := fun heap _ _ => ("42".toList, heap)

/-- A method that returns its first argument. -/
def echo : Method Nat := fun heap _ args => (SlimList_GetStringAt plainLib args 0, heap)

/-- The example executor with a second fixture "Probe", constructed like ExceptionsExample, with
the methods "fortyTwo", "echo" and a "setTrouble" that returns "42". -/
def probeExecutor : StatementExecutor Nat :=
  StatementExecutor_RegisterMethod
    (StatementExecutor_RegisterMethod
      (StatementExecutor_RegisterMethod
        (StatementExecutor_RegisterFixture exampleExecutor "Probe".toList
          ExceptionsExample_Create ExceptionsExample_Destroy)
        "Probe".toList "fortyTwo".toList fortyTwo)
      "Probe".toList "echo".toList echo)
    "Probe".toList "setTrouble".toList fortyTwo

/-- The executor `probeExecutor` after two successful makes under the name "inst": first of
ExceptionsExample, then of Probe. -/
def shadowExecutor : StatementExecutor Nat :=
  (((StatementExecutor_Make 2 plainLib probeExecutor "inst".toList "ExceptionsExample".toList
      (tokens ["ok"])).bind (fun r =>
    StatementExecutor_Make 2 plainLib r.2.1 "inst".toList "Probe".toList
      (tokens ["ok"]))).map (fun r => r.2.1)).getD probeExecutor

/-- The executor `probeExecutor` after a successful make of the instance "p" of Probe. -/
def probeInstanceExecutor : StatementExecutor Nat :=
  ((StatementExecutor_Make 2 plainLib probeExecutor "p".toList "Probe".toList
    (tokens ["ok"])).map (fun r => r.2.1)).getD probeExecutor

/-- A fresh executor with the fixture "F", constructed like ExceptionsExample, on which the
method "m" is registered twice: as `fortyTwo` first and as `echo` afterwards. -/
def twiceExecutor : StatementExecutor Nat :=
  StatementExecutor_RegisterMethod
    (StatementExecutor_RegisterMethod
      (StatementExecutor_RegisterFixture (StatementExecutor_Create 0) "F".toList
        ExceptionsExample_Create ExceptionsExample_Destroy)
      "F".toList "m".toList fortyTwo)
    "F".toList "m".toList echo

/-- The example executor after three makes of ExceptionsExample: "a" with an argument, "b"
without (the constructor fails) and "c" with an argument. -/
def teardownExecutor : StatementExecutor Nat :=
  ((((StatementExecutor_Make 2 plainLib exampleExecutor "a".toList "ExceptionsExample".toList
      (tokens ["ok"])).bind (fun r =>
    StatementExecutor_Make 2 plainLib r.2.1 "b".toList "ExceptionsExample".toList
      (tokens []))).bind (fun r =>
    StatementExecutor_Make 2 plainLib r.2.1 "c".toList "ExceptionsExample".toList
      (tokens ["ok"]))).map (fun r => r.2.1)).getD exampleExecutor

/-! ## Substitution: replacement log, specified scan, buffer size -/

/-- A replacement made by the substitution: the offset of the marker in the string in which it
was made, the length of the name after it and the value put in their place. -/
abbrev Replacement := Nat × Nat × Str

/-- The function `replaceStringFrom` with a log: besides the string it returns, the
replacements it made, in order. -/
def replaceStringFromLog : Nat → SymbolTable → Str → Nat → Option (Str × List Replacement)
  | 0, _, _, _ => none
  | fuel + 1, symbolTable, string, start =>
    match strpbrk "$".toList (string.drop start) with
    | some offset =>
      let dollarSign := start + offset
      let length := lengthOfSymbol (string.drop (dollarSign + 1))
      match SymbolTable_FindSymbol symbolTable (string.drop (dollarSign + 1)) length with
      | some symbolValue =>
        let newString := string.take dollarSign ++ symbolValue ++ string.drop (dollarSign + 1 + length)
        (replaceStringFromLog fuel symbolTable newString 0).map
          (fun r => (r.1, (dollarSign, length, symbolValue) :: r.2))
      | none =>
        if string.drop (dollarSign + 1) = [] then some (buyString string, [])
        else replaceStringFromLog fuel symbolTable string (dollarSign + 1)
    | none => some (buyString string, [])

/-- The substitution as the specification words it (section 4.1 of the specification, not the
source), with the log of its replacements: scan from `position` for the marker; the name is
the maximal run of alphanumeric characters after the marker; if the name resolves, replace
marker and name by the value and restart at the beginning of the new string; if it does not
and the marker is the last character, return the string; otherwise continue immediately after
the unresolved name. -/
def specSubstituteFrom : Nat → SymbolTable → Str → Nat → Option (Str × List Replacement)
  | 0, _, _, _ => none
  | fuel + 1, table, text, position =>
    match strpbrk "$".toList (text.drop position) with
    | none => some (text, [])
    | some offset =>
      let marker := position + offset
      let name := (text.drop (marker + 1)).takeWhile isalnum
      match table name with
      | some value =>
        (specSubstituteFrom fuel table
          (text.take marker ++ value ++ text.drop (marker + 1 + name.length)) 0).map
          (fun r => (r.1, (marker, name.length, value) :: r.2))
      | none =>
        if marker + 1 = text.length then some (text, [])
        else specSubstituteFrom fuel table text (marker + 1 + name.length)

/-- The value the reference at offset `i` of `string` resolves to: `none` when there is no
marker at `i` or the name after it, the alphanumeric run, is not bound. -/
def resolvesAt (table : SymbolTable) (string : Str) (i : Nat) : Option Str :=
  if string[i]? = some '$' then
    SymbolTable_FindSymbol table (string.drop (i + 1)) (lengthOfSymbol (string.drop (i + 1)))
  else none

/-- The number of calls of `replaceStringFrom` that restarts after replacements can take on
strings of at most `markers` markers: the sum of the numbers up to `markers`. -/
def rescanBound : Nat → Nat
  | 0 => 0
  | markers + 1 => markers + 1 + rescanBound markers

/-- The value a C `int` of 32 bits holds after a number is stored in it. -/
def toInt (x : Int) : Int := (x + 2147483648) % 4294967296 - 2147483648

/-- The variable `bufferLength` of `replaceStringFrom`, computed from the string, the value
and the length of the name, `valueLength` and `length` being `int` variables. -/
def bufferLength (string symbolValue : Str) (length : Nat) : Int :=
  let valueLength := toInt symbolValue.length
  toInt (string.length + valueLength - (toInt length + 1) + 1)

/-- The element-wise rewriting the specification ascribes to the list substitution: a plain
string is substituted, a string that decodes as a list is replaced by the encoding of the
substituted list. -/
def replaceElement (fuel : Nat) (lib : SlimLib) (table : SymbolTable) (element : Str) :
    Option Str :=
  match lib.Deserialize element with
  | none => replaceString fuel table element
  | some embeddedList => (replaceSymbols fuel lib table embeddedList).map lib.Serialize

/-- The table with `a` bound to "$b" and `b` bound to "x". -/
def chainTable : SymbolTable :=
  SymbolTable_SetSymbol (SymbolTable_SetSymbol SymbolTable_Create "a".toList "$b".toList)
    "b".toList "x".toList

/-- The table with `b` bound to "bc" and `abc` bound to "Z". -/
def joinTable : SymbolTable :=
  SymbolTable_SetSymbol (SymbolTable_SetSymbol SymbolTable_Create "b".toList "bc".toList)
    "abc".toList "Z".toList

/-- The table with `a` bound to "$a". -/
def selfTable : SymbolTable := SymbolTable_SetSymbol SymbolTable_Create "a".toList "$a".toList

/-- A codec for the concrete runs in which the text after an opening bracket decodes as the
list of that one text, and a list encodes as the bracket followed by its first element. -/
def bracketLib : SlimLib :=
  { Deserialize := fun s =>
      match s with
      | '[' :: rest => some [rest]
      | _ => none,
    Serialize := fun l => '[' :: l.headD [],
    ToString := fun _ => [],
    nullString := [] }

/-- A constructor that always fails, after recording a note of 32 characters. -/
def exactNoteCreate : Constructor Nat :=
  fun heap _ =>
    { instancePtr := none, constructorError := some "NoteOfThirtyTwoCharactersExactly".toList,
      heap := heap }

/-- A fresh executor with the fixture `longClassName`, whose constructor is
`exactNoteCreate`. -/
def longNoteExecutor : StatementExecutor Nat :=
  StatementExecutor_RegisterFixture (StatementExecutor_Create 0) longClassName exactNoteCreate
    Null_Destroy

/-- The executor `probeInstanceExecutor` with the symbol `a` bound to "$a". -/
def selfExecutor : StatementExecutor Nat :=
  StatementExecutor_SetSymbol probeInstanceExecutor "a".toList "$a".toList

/-- The executor `shadowExecutor` with the symbol `v` bound to "7". -/
def boundExecutor : StatementExecutor Nat :=
  StatementExecutor_SetSymbol shadowExecutor "v".toList "7".toList

/-- A batch on `probeExecutor`: a make, a callAndAssign into `v`, a call whose argument refers
to `v` and a malformed call. -/
def probeBatch : List SlimList :=
  [tokens ["1", "make", "p", "Probe", "ok"],
    tokens ["2", "callAndAssign", "v", "p", "fortyTwo"],
    tokens ["3", "call", "p", "echo", "$v"],
    tokens ["4", "call", "p"]]

/-! ## Auxiliary lemmas -/

/-- A formatted text that fits the buffer is stored whole. -/
theorem snprintf_of_length_le (size : Nat) (formatted : Str)
    (h : formatted.length ≤ size - 1) : snprintf size formatted = formatted := by
  simp only [snprintf]
  exact List.take_of_length_le h

/-- The conversion `%.32s` yields at most 32 characters. -/
theorem precision32_length_le (s : Str) : (precision32 s).length ≤ 32 := by
  simp only [precision32, List.length_take]
  omega

/-- The decimal text of a number below one million has at most 6 digits. -/
theorem decimal_length_le (n : Nat) (h : n < 1000000) : (decimal n).length ≤ 6 := by
  simp only [decimal, Nat.toDigits]
  exact Nat.toDigitsCore_length 10 (by decide) (n + 1) n 6 (by simpa using h) (by decide)

/-- A property of the value of an option that is known to be present holds of whatever the
option is found to hold. -/
theorem of_option_get {α : Type} (o : Option α) (P : α → Prop) (h : o.isSome = true)
    (hP : P (o.get h)) (b : α) (hb : o = some b) : P b := by
  subst hb
  exact hP

/-- The result list of the loop is the pairs already added followed by the pairs the loop adds
when started with none. -/
theorem executeLoop_results {σ : Type} (fuel : Nat) (lib : SlimLib)
    (instructions : List SlimList) (self : ListExecutor σ) (results : List SlimList) :
    executeLoop fuel lib self instructions results =
      (executeLoop fuel lib self instructions []).map (fun r => (results ++ r.1, r.2)) := by
  induction instructions generalizing self results with
  | nil => simp [executeLoop]
  | cons instruction rest ih =>
    simp only [executeLoop]
    cases h : Dispatch fuel lib self instruction with
    | none => simp
    | some r =>
      obtain ⟨result, next⟩ := r
      simp only []
      rw [ih next (AddResult results _ result), ih next (AddResult [] _ result)]
      simp [AddResult, Option.map_map, Function.comp_def]

/-- One step of `ListExecutor_Execute`: the first instruction is dispatched, its pair comes
first and the rest is executed from the state it leaves. -/
theorem ListExecutor_Execute_cons {σ : Type} (fuel : Nat) (lib : SlimLib)
    (self : ListExecutor σ) (instruction : SlimList) (rest : List SlimList) :
    ListExecutor_Execute fuel lib self (instruction :: rest) =
      (Dispatch fuel lib self instruction).bind (fun d =>
        (ListExecutor_Execute fuel lib d.2 rest).map (fun r =>
          ([SlimList_GetStringAt lib instruction 0, d.1] :: r.1, r.2))) := by
  simp only [ListExecutor_Execute, executeLoop]
  cases h : Dispatch fuel lib self instruction with
  | none => simp
  | some d =>
    obtain ⟨result, next⟩ := d
    simp only [Option.some_bind]
    rw [executeLoop_results]
    simp [AddResult]

/-- The first node of a name in an instance list: nodes in front under other names are
passed over. -/
theorem find_instance_append (newer older : List InstanceNode) (instanceNode : InstanceNode)
    (instanceName : Str) (hnewer : ∀ other ∈ newer, other.name ≠ instanceName)
    (hname : instanceNode.name = instanceName) :
    (newer ++ instanceNode :: older).find?
      (fun node => decide (node.name = instanceName)) = some instanceNode := by
  induction newer with
  | nil => simp [List.find?, hname]
  | cons head rest ih =>
    have hhead : head.name ≠ instanceName := hnewer head (by simp)
    simp only [List.cons_append, List.find?, hhead, decide_False]
    exact ih (fun other hother => hnewer other (List.mem_cons_of_mem _ hother))

/-- A write through the pointer to the fixture of a name shows at the lookup of that name. -/
theorem find_modifyFixture_same {σ : Type} (update : FixtureNode σ → FixtureNode σ)
    (className : Str) (hname : ∀ node, (update node).name = node.name)
    (fixtures : List (FixtureNode σ)) (known : FixtureNode σ)
    (hknown : fixtures.find? (fun node => decide (node.name = className)) = some known) :
    (modifyFixture update className fixtures).find?
      (fun node => decide (node.name = className)) = some (update known) := by
  induction fixtures with
  | nil => simp at hknown
  | cons head rest ih =>
    by_cases hhead : head.name = className
    · simp only [List.find?, hhead, decide_True, Option.some.injEq] at hknown
      subst hknown
      simp [modifyFixture, hhead, List.find?, hname]
    · simp only [List.find?, hhead, decide_False] at hknown
      simp only [modifyFixture, hhead, if_false, List.find?, decide_False]
      exact ih hknown

/-- A write through the pointer to the fixture of a name does not show at the lookup of
another name. -/
theorem find_modifyFixture_other {σ : Type} (update : FixtureNode σ → FixtureNode σ)
    (className other : Str) (hname : ∀ node, (update node).name = node.name)
    (hother : other ≠ className) (fixtures : List (FixtureNode σ)) :
    (modifyFixture update className fixtures).find?
      (fun node => decide (node.name = other)) =
    fixtures.find? (fun node => decide (node.name = other)) := by
  induction fixtures with
  | nil => rfl
  | cons head rest ih =>
    by_cases hhead : head.name = className
    · have h1 : ¬ head.name = other := fun h => hother (h.symm.trans hhead)
      have h2 : ¬ (update head).name = other := by rw [hname]; exact h1
      have h3 : ¬ className = other := fun h => hother h.symm
      simp [modifyFixture, hhead, List.find?, h1, h2, h3]
    · simp only [modifyFixture, hhead, if_false, List.find?]
      rw [ih]

/-- A write through a fixture pointer keeps the names of the fixture list. -/
theorem modifyFixture_names {σ : Type} (update : FixtureNode σ → FixtureNode σ)
    (className : Str) (hname : ∀ node, (update node).name = node.name)
    (fixtures : List (FixtureNode σ)) :
    (modifyFixture update className fixtures).map (fun node => node.name) =
      fixtures.map (fun node => node.name) := by
  induction fixtures with
  | nil => rfl
  | cons head rest ih =>
    by_cases hhead : head.name = className
    · simp [modifyFixture, hhead, hname]
    · simp only [modifyFixture, hhead, if_false, List.map_cons]
      rw [ih]

/-- The node a fixture lookup finds bears the name looked up. -/
theorem findFixture_name {σ : Type} (executor : StatementExecutor σ) (className : Str)
    (fixture : FixtureNode σ) (h : findFixture executor className = some fixture) :
    fixture.name = className := by
  have := List.find?_some h
  simpa using this

/-- The fixture list after `StatementExecutor_RegisterMethod` on an unknown class name. -/
theorem RegisterMethod_fixtures_of_unknown {σ : Type} (executor : StatementExecutor σ)
    (className methodName : Str) (method : Method σ)
    (hunknown : findFixture executor className = none) :
    (StatementExecutor_RegisterMethod executor className methodName method).fixtures =
      { constructor := Null_Create, destructor := Null_Destroy,
        methods := [{ name := methodName, method := method }], name := className }
        :: executor.fixtures := by
  simp [StatementExecutor_RegisterMethod, StatementExecutor_RegisterFixture, hunknown,
    modifyFixture]

/-- The fixture list after `StatementExecutor_RegisterMethod` on a known class name. -/
theorem RegisterMethod_fixtures_of_known {σ : Type} (executor : StatementExecutor σ)
    (className methodName : Str) (method : Method σ) (known : FixtureNode σ)
    (hknown : findFixture executor className = some known) :
    (StatementExecutor_RegisterMethod executor className methodName method).fixtures =
      modifyFixture
        (fun fixtureNode =>
          { fixtureNode with
            methods := { name := methodName, method := method } :: fixtureNode.methods })
        className executor.fixtures := by
  simp [StatementExecutor_RegisterMethod, hknown]

/-- The alphanumeric run at the start of a string of alphanumeric characters is the string. -/
theorem lengthOfSymbol_of_alnum (name : Str) (h : ∀ c ∈ name, isalnum c = true) :
    lengthOfSymbol name = name.length := by
  induction name with
  | nil => rfl
  | cons c rest ih =>
    have hc : isalnum c = true := h c (by simp)
    simp only [lengthOfSymbol, hc, if_true, List.length_cons]
    rw [ih (fun d hd => h d (List.mem_cons_of_mem _ hd))]

/-- When the class is registered and the substitution of the arguments returns,
`StatementExecutor_Make` returns, and the executor it leaves has the new node, with the pointer
the constructor returned, in front of the instance list, and the fixture list as before. -/
theorem StatementExecutor_Make_links_at_head {σ : Type} (fuel : Nat) (lib : SlimLib)
    (executor : StatementExecutor σ) (instanceName className : Str) (args substituted : SlimList)
    (fixtureNode : FixtureNode σ)
    (hfind : findFixture executor className = some fixtureNode)
    (hsub : replaceSymbols fuel lib executor.symbolTable args = some substituted) :
    ∃ (result : Str) (after : StatementExecutor σ),
      StatementExecutor_Make fuel lib executor instanceName className args =
        some (result, after, substituted) ∧
      after.instances =
        { name := instanceName,
          instancePtr := (fixtureNode.constructor executor.heap substituted).instancePtr,
          fixture := fixtureNode.name } :: executor.instances ∧
      after.fixtures = executor.fixtures := by
  simp only [StatementExecutor_Make, hfind, hsub]
  cases hnote : (fixtureNode.constructor executor.heap substituted).constructorError <;>
    split <;> exact ⟨_, _, rfl, rfl, rfl⟩

/-- A string without marker has no first marker. -/
theorem strpbrk_of_not_mem (l : Str) (h : '$' ∉ l) : strpbrk "$".toList l = none := by
  induction l with
  | nil => rfl
  | cons c rest ih =>
    have hc : ¬ c ∈ "$".toList := by
      intro hmem
      have : c = '$' := by simpa using hmem
      exact h (by simp [this])
    simp only [strpbrk, hc, if_false, ih (fun hmem => h (List.mem_cons_of_mem _ hmem)),
      Option.map_none']

/-- The first marker of a string is where the part without marker ends. -/
theorem strpbrk_append_marker (front back : Str) (h : '$' ∉ front) :
    strpbrk "$".toList (front ++ '$' :: back) = some front.length := by
  induction front with
  | nil => simp [strpbrk]
  | cons c rest ih =>
    have hc : ¬ c ∈ "$".toList := by
      intro hmem
      have : c = '$' := by simpa using hmem
      exact h (by simp [this])
    have hrest := ih (fun hmem => h (List.mem_cons_of_mem _ hmem))
    show strpbrk "$".toList (c :: (rest ++ '$' :: back)) = some (rest.length + 1)
    simp only [strpbrk, hc, if_false, hrest, Option.map_some']

/-- The alphanumeric run at the start of a string is not longer than the string. -/
theorem lengthOfSymbol_le (l : Str) : lengthOfSymbol l ≤ l.length := by
  induction l with
  | nil => simp [lengthOfSymbol]
  | cons c rest ih =>
    simp only [lengthOfSymbol, List.length_cons]
    split <;> omega

/-- The alphanumeric run at the start of a string holds no marker. -/
theorem not_mem_take_lengthOfSymbol (l : Str) : '$' ∉ l.take (lengthOfSymbol l) := by
  induction l with
  | nil => simp
  | cons c rest ih =>
    simp only [lengthOfSymbol]
    by_cases hc : isalnum c = true
    · simp only [hc, if_true, List.take_succ_cons, List.mem_cons, not_or]
      refine ⟨?_, ih⟩
      intro heq
      subst heq
      exact absurd hc (by decide)
    · simp [hc]

/-- The string without its marker-free alphanumeric run has as many markers as the string. -/
theorem count_drop_lengthOfSymbol (l : Str) :
    (l.drop (lengthOfSymbol l)).count '$' = l.count '$' := by
  have h := List.take_append_drop (lengthOfSymbol l) l
  have hcount : l.count '$' =
      (l.take (lengthOfSymbol l)).count '$' + (l.drop (lengthOfSymbol l)).count '$' := by
    rw [← List.count_append, h]
  rw [hcount, List.count_eq_zero_of_not_mem (not_mem_take_lengthOfSymbol l)]
  omega

/-- The log version returns the string `replaceStringFrom` returns. -/
theorem replaceStringFromLog_fst (fuel : Nat) (table : SymbolTable) (string : Str)
    (start : Nat) :
    (replaceStringFromLog fuel table string start).map Prod.fst =
      replaceStringFrom fuel table string start := by
  induction fuel generalizing string start with
  | zero => rfl
  | succ fuel ih =>
    simp only [replaceStringFromLog, replaceStringFrom]
    cases strpbrk "$".toList (string.drop start) with
    | none => rfl
    | some offset =>
      simp only []
      cases SymbolTable_FindSymbol table (string.drop (start + offset + 1))
          (lengthOfSymbol (string.drop (start + offset + 1))) with
      | some symbolValue =>
        simp only [Option.map_map]
        rw [← ih]
        rfl
      | none =>
        simp only []
        split
        · rfl
        · exact ih _ _

/-- One call of the substitution on a string whose part from `start` on, the part `todo`,
holds no marker: the string is returned. -/
theorem replaceStringFromLog_of_no_marker (fuel : Nat) (table : SymbolTable)
    (scanned todo : Str) (h : '$' ∉ todo) :
    replaceStringFromLog (fuel + 1) table (scanned ++ todo) scanned.length =
      some (scanned ++ todo, []) := by
  simp only [replaceStringFromLog, List.drop_left, strpbrk_of_not_mem todo h, buyString]

/-- One call of the substitution on a string whose first marker from `start` on stands after
the marker-free part `front`, `back` being what follows the marker. -/
theorem replaceStringFromLog_of_marker (fuel : Nat) (table : SymbolTable)
    (scanned front back : Str) (h : '$' ∉ front) :
    replaceStringFromLog (fuel + 1) table (scanned ++ front ++ '$' :: back) scanned.length =
      match SymbolTable_FindSymbol table back (lengthOfSymbol back) with
      | some symbolValue =>
        (replaceStringFromLog fuel table
          (scanned ++ front ++ symbolValue ++ back.drop (lengthOfSymbol back)) 0).map
          (fun r => (r.1, ((scanned ++ front).length, lengthOfSymbol back, symbolValue) :: r.2))
      | none =>
        if back = [] then some (scanned ++ front ++ '$' :: back, [])
        else replaceStringFromLog fuel table (scanned ++ front ++ '$' :: back)
          ((scanned ++ front).length + 1) := by
  have hdrop : (scanned ++ front ++ '$' :: back).drop scanned.length = front ++ '$' :: back := by
    rw [List.append_assoc, List.drop_left]
  have hafter : (scanned ++ front ++ '$' :: back).drop (scanned.length + front.length + 1) = back := by
    have : scanned ++ front ++ '$' :: back = (scanned ++ front ++ ['$']) ++ back := by simp
    rw [this]
    apply List.drop_left'
    simp only [List.length_append, List.length_singleton]
  have htake : (scanned ++ front ++ '$' :: back).take (scanned.length + front.length) =
      scanned ++ front := by
    apply List.take_left'
    simp
  have hrest : ∀ n, (scanned ++ front ++ '$' :: back).drop (scanned.length + front.length + 1 + n) =
      back.drop n := by
    intro n
    rw [← List.drop_drop, hafter]
  simp only [replaceStringFromLog, hdrop, strpbrk_append_marker front back h, hafter, htake,
    hrest, buyString, List.length_append]

/-- The reference at the offset of a marker: its name is looked up in what follows the marker. -/
theorem resolvesAt_append_marker (table : SymbolTable) (front back : Str) :
    resolvesAt table (front ++ '$' :: back) front.length =
      SymbolTable_FindSymbol table back (lengthOfSymbol back) := by
  have hget : (front ++ '$' :: back)[front.length]? = some '$' := by
    rw [List.getElem?_append_right (Nat.le_refl _)]
    simp
  have hdrop : (front ++ '$' :: back).drop (front.length + 1) = back := by
    have : front ++ '$' :: back = (front ++ ['$']) ++ back := by simp
    rw [this]
    apply List.drop_left'
    simp
  simp only [resolvesAt, hget, if_true, hdrop]

/-- No reference resolves at an offset past the end of the string. -/
theorem resolvesAt_of_length_le (table : SymbolTable) (string : Str) (i : Nat)
    (h : string.length ≤ i) : resolvesAt table string i = none := by
  have hget : string[i]? = none := by simpa using h
  simp [resolvesAt, hget]

/-- No reference resolves at an offset that holds another character than the marker. -/
theorem resolvesAt_of_ne (table : SymbolTable) (string : Str) (i : Nat)
    (h : string[i]? ≠ some '$') : resolvesAt table string i = none := by
  simp [resolvesAt, h]

/-- The substitution returns the string, with no replacement, when no reference from the scan
position on resolves and the fuel exceeds the number of markers left to scan. -/
theorem replaceStringFromLog_of_unresolved (table : SymbolTable) (fuel : Nat)
    (scanned todo : Str)
    (hunresolved : ∀ i, scanned.length ≤ i → resolvesAt table (scanned ++ todo) i = none)
    (hfuel : todo.count '$' < fuel) :
    replaceStringFromLog fuel table (scanned ++ todo) scanned.length =
      some (scanned ++ todo, []) := by
  induction fuel generalizing scanned todo with
  | zero => omega
  | succ fuel ih =>
    by_cases hmarker : '$' ∈ todo
    · obtain ⟨front, back, rfl, hfront⟩ := List.eq_append_cons_of_mem hmarker
      have hnone : SymbolTable_FindSymbol table back (lengthOfSymbol back) = none := by
        rw [← resolvesAt_append_marker table (scanned ++ front) back, List.append_assoc]
        exact hunresolved _ (by simp)
      rw [← List.append_assoc, replaceStringFromLog_of_marker fuel table scanned front back
        hfront, hnone]
      simp only []
      split
      · rfl
      · have hsplit : scanned ++ front ++ '$' :: back = (scanned ++ front ++ ['$']) ++ back := by
          simp
        have hlength : (scanned ++ front).length + 1 = (scanned ++ front ++ ['$']).length := by
          simp only [List.length_append, List.length_singleton]
        rw [hlength, hsplit]
        apply ih
        · intro i hi
          rw [← hsplit, List.append_assoc]
          apply hunresolved
          simp only [List.length_append, List.length_singleton] at hi
          omega
        · have hcount : (front ++ '$' :: back).count '$' =
              front.count '$' + (back.count '$' + 1) := by
            rw [List.count_append, List.count_cons_self]
          omega
    · exact replaceStringFromLog_of_no_marker fuel table scanned todo hmarker

/-- The substitution scans past the unresolved references before the leftmost resolvable one,
one call for each, replaces that one and restarts on the new string with the fuel left. -/
theorem replaceStringFromLog_of_leftmost (table : SymbolTable) (fuel : Nat)
    (scanned todo n r v : Str)
    (hrun : lengthOfSymbol (n ++ r) = n.length) (hbound : table n = some v)
    (hunresolved : ∀ i, scanned.length ≤ i → i < (scanned ++ todo).length →
      resolvesAt table (scanned ++ todo ++ '$' :: (n ++ r)) i = none) :
    replaceStringFromLog (fuel + todo.count '$' + 1) table
        (scanned ++ todo ++ '$' :: (n ++ r)) scanned.length =
      (replaceStringFromLog fuel table (scanned ++ todo ++ v ++ r) 0).map
        (fun x => (x.1, ((scanned ++ todo).length, n.length, v) :: x.2)) := by
  generalize hk : todo.count '$' = k
  induction k generalizing scanned todo with
  | zero =>
    have hfree : '$' ∉ todo := List.count_eq_zero.mp hk
    have hfound : SymbolTable_FindSymbol table (n ++ r) (lengthOfSymbol (n ++ r)) = some v := by
      simp only [SymbolTable_FindSymbol, hrun, List.take_left, hbound]
    rw [replaceStringFromLog_of_marker fuel table scanned todo (n ++ r) hfree, hfound]
    simp only [hrun, List.drop_left]
  | succ k ih =>
    have hmarker : '$' ∈ todo := by
      apply List.count_pos_iff.mp
      omega
    obtain ⟨front, back, rfl, hfront⟩ := List.eq_append_cons_of_mem hmarker
    have hcount : back.count '$' = k := by
      have : (front ++ '$' :: back).count '$' = front.count '$' + (back.count '$' + 1) := by
        rw [List.count_append, List.count_cons_self]
      have hzero := List.count_eq_zero_of_not_mem hfront
      omega
    have hstring : scanned ++ (front ++ '$' :: back) ++ '$' :: (n ++ r) =
        scanned ++ front ++ '$' :: (back ++ '$' :: (n ++ r)) := by simp
    have hnone : SymbolTable_FindSymbol table (back ++ '$' :: (n ++ r))
        (lengthOfSymbol (back ++ '$' :: (n ++ r))) = none := by
      rw [← resolvesAt_append_marker table (scanned ++ front), ← hstring]
      apply hunresolved
      · simp
      · simp
    have hnonempty : ¬ back ++ '$' :: (n ++ r) = [] := by simp
    have hfuel : fuel + (k + 1) + 1 = (fuel + k + 1) + 1 := by omega
    rw [hfuel, hstring,
      replaceStringFromLog_of_marker (fuel + k + 1) table scanned front _ hfront, hnone]
    simp only [hnonempty, if_false]
    have hsplit : scanned ++ front ++ '$' :: (back ++ '$' :: (n ++ r)) =
        (scanned ++ front ++ ['$']) ++ back ++ '$' :: (n ++ r) := by simp
    have hlength : (scanned ++ front).length + 1 = (scanned ++ front ++ ['$']).length := by
      simp only [List.length_append, List.length_singleton]
    have hresult : scanned ++ (front ++ '$' :: back) = (scanned ++ front ++ ['$']) ++ back := by
      simp
    rw [hsplit, hlength, hresult]
    apply ih (scanned ++ front ++ ['$']) back
    · intro i hi hlt
      rw [← hsplit, ← hstring]
      apply hunresolved
      · simp only [List.length_append, List.length_singleton] at hi
        omega
      · rw [hresult]
        exact hlt
    · exact hcount

/-- A loop that rewrites the slots of a list one after the other, each from what the slot
holds, yields the list of the rewritten elements, in order. -/
theorem foldlM_set_eq_mapM (g : Str → Option Str) (d : Str) (front back : SlimList) :
    (List.range' front.length back.length).foldlM
        (fun (list : SlimList) (i : Nat) =>
          (g (list.getD i d)).map (fun replaced => list.set i replaced))
        (front ++ back) =
      (back.mapM g).map (fun out => front ++ out) := by
  induction back generalizing front with
  | nil =>
    show some (front ++ []) = some (front ++ [])
    rfl
  | cons element rest ih =>
    have hget : (front ++ element :: rest).getD front.length d = element := by
      rw [List.getD_eq_getElem?_getD, List.getElem?_append_right (Nat.le_refl _)]
      simp
    have hset : ∀ replaced : Str,
        (front ++ element :: rest).set front.length replaced =
          (front ++ [replaced]) ++ rest := by
      intro replaced
      rw [List.set_append_right _ _ (Nat.le_refl _)]
      simp
    simp only [List.length_cons, List.range'_succ, List.foldlM_cons, hget, List.mapM_cons]
    cases hg : g element with
    | none => rfl
    | some replaced =>
      have hlength : front.length + 1 = (front ++ [replaced]).length := by simp
      simp only [Option.map_some', Option.some_bind, Option.bind_eq_bind, hset, hlength, ih]
      cases rest.mapM g <;> simp

/-- The list an element-wise rewriting returns has the length of the list rewritten, and
its elements are the rewritten elements, in order. -/
theorem mapM_some_elements (g : Str → Option Str) (list out : SlimList)
    (h : list.mapM g = some out) :
    out.length = list.length ∧ ∀ i, i < list.length → (list[i]?).bind g = out[i]? := by
  induction list generalizing out with
  | nil =>
    simp only [List.mapM_nil] at h
    cases h
    simp
  | cons element rest ih =>
    rw [List.mapM_cons] at h
    cases hg : g element with
    | none =>
      rw [hg] at h
      cases h
    | some replaced =>
      cases hrest : rest.mapM g with
      | none =>
        rw [hg, hrest] at h
        cases h
      | some others =>
        rw [hg, hrest] at h
        cases h
        obtain ⟨hlength, helements⟩ := ih others hrest
        refine ⟨by simp [hlength], ?_⟩
        intro i hi
        cases i with
        | zero => simp [hg]
        | succ i => simpa using helements i (by simpa using hi)

/-- A buffer of at least 25 characters keeps the sentinel at the start of the text. -/
theorem exceptionTag_kept (size : Nat) (rest : Str) (h : 25 ≤ size) :
    exceptionTag <+: snprintf size (exceptionTag ++ rest) := by
  refine ⟨rest.take (size - 25), ?_⟩
  have hsize : size - 1 = exceptionTag.length + (size - 25) := by
    have : exceptionTag.length = 24 := rfl
    omega
  rw [snprintf, hsize, List.take_append]

/-- A text that fits the buffer keeps its closing brackets. -/
theorem closing_kept (size : Nat) (body : Str) (h : (body ++ ".>>".toList).length ≤ size - 1) :
    ">>".toList <:+ snprintf size (body ++ ".>>".toList) := by
  rw [snprintf_of_length_le size _ h]
  exact ⟨body ++ ".".toList, by simp⟩

/-- The text `StatementExecutor_Make` returns for an unknown class. -/
theorem StatementExecutor_Make_of_unknown {σ : Type} (fuel : Nat) (lib : SlimLib)
    (executor : StatementExecutor σ) (instanceName className : Str) (args : SlimList)
    (hunknown : findFixture executor className = none) :
    ∃ r, StatementExecutor_Make fuel lib executor instanceName className args = some r ∧
      r.1 = snprintf 120
        (exceptionTag ++ "NO_CLASS ".toList ++ precision32 className ++ ".>>".toList) := by
  simp only [StatementExecutor_Make, hunknown]
  exact ⟨_, rfl, rfl⟩

/-- The text `StatementExecutor_Make` returns when the constructor returns no handle. -/
theorem StatementExecutor_Make_of_failed {σ : Type} (fuel : Nat) (lib : SlimLib)
    (executor : StatementExecutor σ) (instanceName className : Str)
    (args substituted : SlimList) (fixtureNode : FixtureNode σ)
    (hfind : findFixture executor className = some fixtureNode)
    (hsub : replaceSymbols fuel lib executor.symbolTable args = some substituted)
    (hnull : (fixtureNode.constructor executor.heap substituted).instancePtr = none) :
    ∃ r, StatementExecutor_Make fuel lib executor instanceName className args = some r ∧
      r.1 = snprintf 120 (exceptionTag ++ "COULD_NOT_INVOKE_CONSTRUCTOR ".toList
        ++ precision32 className ++ " ".toList
        ++ precision32
          ((fixtureNode.constructor executor.heap substituted).constructorError.getD [])
        ++ ".>>".toList) := by
  simp only [StatementExecutor_Make, hfind, hsub, hnull]
  cases hnote : (fixtureNode.constructor executor.heap substituted).constructorError <;>
    exact ⟨_, rfl, rfl⟩

/-- The text `StatementExecutor_Call` returns for an unknown instance. -/
theorem StatementExecutor_Call_of_no_instance {σ : Type} (fuel : Nat) (lib : SlimLib)
    (executor : StatementExecutor σ) (instanceName methodName : Str) (args : SlimList)
    (hnone : GetInstanceNode executor instanceName = none) :
    ∃ r, StatementExecutor_Call fuel lib executor instanceName methodName args = some r ∧
      r.1 = snprintf 120
        (exceptionTag ++ "NO_INSTANCE ".toList ++ precision32 instanceName ++ ".>>".toList) := by
  simp only [StatementExecutor_Call, hnone]
  exact ⟨_, rfl, rfl⟩

/-- The maximal alphanumeric run at the start of a string is the name `SymbolTable_FindSymbol`
is given. -/
theorem takeWhile_isalnum_eq_take (l : Str) :
    l.takeWhile isalnum = l.take (lengthOfSymbol l) := by
  induction l with
  | nil => rfl
  | cons c rest ih =>
    by_cases hc : isalnum c = true
    · simp [List.takeWhile, lengthOfSymbol, hc, ih]
    · simp [List.takeWhile, lengthOfSymbol, hc]

/-- One step of the specified scan on a string that holds no marker from the position on. -/
theorem specSubstituteFrom_of_no_marker (fuel : Nat) (table : SymbolTable)
    (scanned todo : Str) (h : '$' ∉ todo) :
    specSubstituteFrom (fuel + 1) table (scanned ++ todo) scanned.length =
      some (scanned ++ todo, []) := by
  simp only [specSubstituteFrom, List.drop_left, strpbrk_of_not_mem todo h]

/-- One step of the specified scan on a string whose first marker from the position on stands
after the marker-free part `front`. -/
theorem specSubstituteFrom_of_marker (fuel : Nat) (table : SymbolTable)
    (scanned front back : Str) (h : '$' ∉ front) :
    specSubstituteFrom (fuel + 1) table (scanned ++ front ++ '$' :: back) scanned.length =
      match SymbolTable_FindSymbol table back (lengthOfSymbol back) with
      | some value =>
        (specSubstituteFrom fuel table
          (scanned ++ front ++ value ++ back.drop (lengthOfSymbol back)) 0).map
          (fun r => (r.1, ((scanned ++ front).length, lengthOfSymbol back, value) :: r.2))
      | none =>
        if back = [] then some (scanned ++ front ++ '$' :: back, [])
        else specSubstituteFrom fuel table (scanned ++ front ++ '$' :: back)
          ((scanned ++ front).length + 1 + lengthOfSymbol back) := by
  have hdrop : (scanned ++ front ++ '$' :: back).drop scanned.length = front ++ '$' :: back := by
    rw [List.append_assoc, List.drop_left]
  have hafter : (scanned ++ front ++ '$' :: back).drop (scanned.length + front.length + 1) =
      back := by
    have : scanned ++ front ++ '$' :: back = (scanned ++ front ++ ['$']) ++ back := by simp
    rw [this]
    apply List.drop_left'
    simp only [List.length_append, List.length_singleton]
  have htake : (scanned ++ front ++ '$' :: back).take (scanned.length + front.length) =
      scanned ++ front := by
    apply List.take_left'
    simp
  have hrest : ∀ n, (scanned ++ front ++ '$' :: back).drop
      (scanned.length + front.length + 1 + n) = back.drop n := by
    intro n
    rw [← List.drop_drop, hafter]
  have hlast : (scanned.length + front.length + 1 =
      scanned.length + front.length + (back.length + 1)) ↔ back = [] := by
    rw [← List.length_eq_zero]
    omega
  have hname : (back.take (lengthOfSymbol back)).length = lengthOfSymbol back := by
    have := lengthOfSymbol_le back
    simp only [List.length_take]
    omega
  simp only [specSubstituteFrom, hdrop, strpbrk_append_marker front back h, hafter, htake,
    hrest, List.length_append, List.length_cons, takeWhile_isalnum_eq_take, hname,
    SymbolTable_FindSymbol, hlast]

/-- The specified scan, resumed after a part without marker, and the scan of the source,
resumed before that part, return the same string and make the same replacements. -/
theorem specSubstituteFrom_eq_replaceStringFromLog (table : SymbolTable) (fuel : Nat)
    (scanned skipped todo : Str) (hskipped : '$' ∉ skipped) :
    specSubstituteFrom fuel table (scanned ++ skipped ++ todo) (scanned ++ skipped).length =
      replaceStringFromLog fuel table (scanned ++ skipped ++ todo) scanned.length := by
  induction fuel generalizing scanned skipped todo with
  | zero => rfl
  | succ fuel ih =>
    have hrestart : ∀ text : Str,
        specSubstituteFrom fuel table text 0 = replaceStringFromLog fuel table text 0 := by
      intro text
      have := ih [] [] text (by simp)
      simpa using this
    by_cases hmarker : '$' ∈ todo
    · obtain ⟨front, back, rfl, hfront⟩ := List.eq_append_cons_of_mem hmarker
      have hboth : '$' ∉ skipped ++ front := by
        simp only [List.mem_append, not_or]
        exact ⟨hskipped, hfront⟩
      have hspec : scanned ++ skipped ++ (front ++ '$' :: back) =
          (scanned ++ skipped) ++ front ++ '$' :: back := by simp
      have hcode : scanned ++ skipped ++ (front ++ '$' :: back) =
          scanned ++ (skipped ++ front) ++ '$' :: back := by simp
      have hjoin : scanned ++ (skipped ++ front) = scanned ++ skipped ++ front := by simp
      rw [hspec, specSubstituteFrom_of_marker fuel table (scanned ++ skipped) front back hfront,
        ← hspec, hcode,
        replaceStringFromLog_of_marker fuel table scanned (skipped ++ front) back hboth, hjoin]
      cases SymbolTable_FindSymbol table back (lengthOfSymbol back) with
      | some value =>
        simp only [hrestart]
      | none =>
        simp only []
        split
        · rfl
        · have hsplit : scanned ++ skipped ++ front ++ '$' :: back =
              (scanned ++ skipped ++ front ++ ['$']) ++ back.take (lengthOfSymbol back)
                ++ back.drop (lengthOfSymbol back) := by
            simp
          have hposition : (scanned ++ skipped ++ front).length + 1 + lengthOfSymbol back =
              ((scanned ++ skipped ++ front ++ ['$']) ++
                back.take (lengthOfSymbol back)).length := by
            have := lengthOfSymbol_le back
            simp only [List.length_append, List.length_singleton, List.length_take]
            omega
          have hstart : (scanned ++ skipped ++ front).length + 1 =
              (scanned ++ skipped ++ front ++ ['$']).length := by
            simp only [List.length_append, List.length_singleton]
          rw [hposition, hstart, hsplit]
          exact ih (scanned ++ skipped ++ front ++ ['$']) (back.take (lengthOfSymbol back))
            (back.drop (lengthOfSymbol back)) (not_mem_take_lengthOfSymbol back)
    · have hnone : '$' ∉ skipped ++ todo := by
        simp only [List.mem_append, not_or]
        exact ⟨hskipped, hmarker⟩
      rw [specSubstituteFrom_of_no_marker fuel table (scanned ++ skipped) todo hmarker,
        List.append_assoc,
        replaceStringFromLog_of_no_marker fuel table scanned (skipped ++ todo) hnone]

/-- When no bound value holds a marker, the substitution returns as soon as the fuel covers
the markers left to scan, the call at hand and the rescans after the replacements still
possible, and it makes at most as many replacements as the string has markers. -/
theorem replaceStringFromLog_returns (table : SymbolTable)
    (hfree : ∀ (name v : Str), table name = some v → '$' ∉ v) (fuel : Nat)
    (scanned todo : Str)
    (hfuel : todo.count '$' + 1 + rescanBound ((scanned ++ todo).count '$') ≤ fuel) :
    ∃ (result : Str) (log : List Replacement),
      replaceStringFromLog fuel table (scanned ++ todo) scanned.length = some (result, log) ∧
      log.length ≤ (scanned ++ todo).count '$' := by
  induction fuel generalizing scanned todo with
  | zero => omega
  | succ fuel ih =>
    by_cases hmarker : '$' ∈ todo
    · obtain ⟨front, back, rfl, hfront⟩ := List.eq_append_cons_of_mem hmarker
      have hzero := List.count_eq_zero_of_not_mem hfront
      have htodo : (front ++ '$' :: back).count '$' = back.count '$' + 1 := by
        rw [List.count_append, List.count_cons_self, hzero]
        omega
      have hall : (scanned ++ (front ++ '$' :: back)).count '$' =
          scanned.count '$' + (back.count '$' + 1) := by
        rw [List.count_append, htodo]
      rw [hall, htodo] at hfuel
      rw [hall, ← List.append_assoc,
        replaceStringFromLog_of_marker fuel table scanned front back hfront]
      cases hfind : SymbolTable_FindSymbol table back (lengthOfSymbol back) with
      | some v =>
        have hvalue : '$' ∉ v := hfree _ v hfind
        have hnew : (scanned ++ front ++ v ++ back.drop (lengthOfSymbol back)).count '$' =
            scanned.count '$' + back.count '$' := by
          simp only [List.count_append, hzero, List.count_eq_zero_of_not_mem hvalue,
            count_drop_lengthOfSymbol]
          omega
        have hbound : rescanBound (scanned.count '$' + (back.count '$' + 1)) =
            scanned.count '$' + back.count '$' + 1 +
              rescanBound (scanned.count '$' + back.count '$') := rfl
        obtain ⟨result, log, hreturns, hlog⟩ :=
          ih [] (scanned ++ front ++ v ++ back.drop (lengthOfSymbol back)) (by
            simp only [List.nil_append, hnew]
            omega)
        simp only [List.nil_append, List.length_nil, hnew] at hreturns hlog
        refine ⟨result, ((scanned ++ front).length, lengthOfSymbol back, v) :: log, ?_, ?_⟩
        · simp only [hreturns, Option.map_some']
        · simp only [List.length_cons]
          omega
      | none =>
        simp only []
        split
        · exact ⟨_, [], rfl, by simp⟩
        · have hsplit : scanned ++ front ++ '$' :: back = (scanned ++ front ++ ['$']) ++ back := by
            simp
          have hlength : (scanned ++ front).length + 1 = (scanned ++ front ++ ['$']).length := by
            simp only [List.length_append, List.length_singleton]
          have hsame : ((scanned ++ front ++ ['$']) ++ back).count '$' =
              scanned.count '$' + (back.count '$' + 1) := by
            rw [← hsplit, List.append_assoc, hall]
          obtain ⟨result, log, hreturns, hlog⟩ := ih (scanned ++ front ++ ['$']) back (by
            rw [hsame]
            omega)
          rw [hsame] at hlog
          rw [hsplit, hlength]
          exact ⟨result, log, hreturns, hlog⟩
    · rw [replaceStringFromLog_of_no_marker fuel table scanned todo hmarker]
      exact ⟨_, [], rfl, by simp⟩

/-- The substitution of "$a" with `a` bound to "$a" returns for no fuel. -/
theorem replaceStringFromLog_selfTable (fuel : Nat) :
    replaceStringFromLog fuel selfTable "$a".toList 0 = none := by
  induction fuel with
  | zero => rfl
  | succ fuel ih =>
    have hstep := replaceStringFromLog_of_marker fuel selfTable [] [] "a".toList (by simp)
    have hfound : SymbolTable_FindSymbol selfTable "a".toList (lengthOfSymbol "a".toList) =
        some "$a".toList := by decide
    rw [hfound] at hstep
    have hnew : ([] : Str) ++ [] ++ "$a".toList ++ "a".toList.drop (lengthOfSymbol "a".toList) =
        "$a".toList := by decide
    simp only [hnew, ih, Option.map_none'] at hstep
    exact hstep

/-- No reference resolves at the offsets up to and including an unresolved marker, when none
resolves in the scanned part and the part between holds no marker. -/
theorem resolvesAt_up_to_marker (table : SymbolTable) (scanned front back : Str)
    (hbefore : ∀ i, i < scanned.length →
      resolvesAt table (scanned ++ front ++ '$' :: back) i = none)
    (hfront : '$' ∉ front)
    (hnone : SymbolTable_FindSymbol table back (lengthOfSymbol back) = none) (i : Nat)
    (hi : i ≤ (scanned ++ front).length) :
    resolvesAt table (scanned ++ front ++ '$' :: back) i = none := by
  by_cases h1 : i < scanned.length
  · exact hbefore i h1
  · by_cases h2 : i = (scanned ++ front).length
    · rw [h2, resolvesAt_append_marker, hnone]
    · apply resolvesAt_of_ne
      intro hget
      have hlt : i < (scanned ++ front).length := by omega
      rw [List.getElem?_append_left hlt, List.getElem?_append_right (by omega)] at hget
      exact hfront (List.getElem?_mem hget)

/-- In a string the substitution returns no reference resolves. -/
theorem replaceStringFromLog_result_unresolved (table : SymbolTable) (fuel : Nat)
    (scanned todo result : Str) (log : List Replacement)
    (hbefore : ∀ i, i < scanned.length → resolvesAt table (scanned ++ todo) i = none)
    (hreturns : replaceStringFromLog fuel table (scanned ++ todo) scanned.length =
      some (result, log)) :
    ∀ i, resolvesAt table result i = none := by
  induction fuel generalizing scanned todo log with
  | zero => simp [replaceStringFromLog] at hreturns
  | succ fuel ih =>
    by_cases hmarker : '$' ∈ todo
    · obtain ⟨front, back, rfl, hfront⟩ := List.eq_append_cons_of_mem hmarker
      rw [← List.append_assoc] at hreturns hbefore
      rw [replaceStringFromLog_of_marker fuel table scanned front back hfront] at hreturns
      cases hfind : SymbolTable_FindSymbol table back (lengthOfSymbol back) with
      | some v =>
        rw [hfind] at hreturns
        simp only [Option.map_eq_some', Prod.mk.injEq] at hreturns
        obtain ⟨⟨result2, log2⟩, hinner, hresult, -⟩ := hreturns
        subst hresult
        exact ih [] _ log2 (fun i hi => absurd hi (by simp)) (by simpa using hinner)
      | none =>
        rw [hfind] at hreturns
        simp only [] at hreturns
        split at hreturns
        · rename_i hempty
          simp only [Option.some.injEq, Prod.mk.injEq] at hreturns
          obtain ⟨hresult, -⟩ := hreturns
          subst hresult
          intro i
          by_cases hi : i ≤ (scanned ++ front).length
          · exact resolvesAt_up_to_marker table scanned front back hbefore hfront hfind i hi
          · apply resolvesAt_of_length_le
            subst hempty
            simp only [List.length_append, List.length_cons, List.length_nil] at hi ⊢
            omega
        · have hsplit : scanned ++ front ++ '$' :: back = (scanned ++ front ++ ['$']) ++ back := by
            simp
          have hlength : (scanned ++ front).length + 1 = (scanned ++ front ++ ['$']).length := by
            simp only [List.length_append, List.length_singleton]
          rw [hsplit, hlength] at hreturns
          apply ih (scanned ++ front ++ ['$']) back log _ hreturns
          intro i hi
          rw [← hsplit]
          apply resolvesAt_up_to_marker table scanned front back hbefore hfront hfind i
          simp only [List.length_append, List.length_singleton] at hi ⊢
          omega
    · rw [replaceStringFromLog_of_no_marker fuel table scanned todo hmarker] at hreturns
      simp only [Option.some.injEq, Prod.mk.injEq] at hreturns
      obtain ⟨hresult, -⟩ := hreturns
      subst hresult
      intro i
      by_cases hi : i < scanned.length
      · exact hbefore i hi
      · apply resolvesAt_of_ne
        intro hget
        rw [List.getElem?_append_right (by omega)] at hget
        exact hmarker (List.getElem?_mem hget)

/-- A number within the range of `int` is stored unchanged. -/
theorem toInt_of_range (x : Int) (hlow : -2147483648 ≤ x) (hhigh : x < 2147483648) :
    toInt x = x := by
  simp only [toInt]
  omega

/-- The first marker the search finds lies inside the string searched. -/
theorem strpbrk_lt_length (accept l : Str) (offset : Nat)
    (h : strpbrk accept l = some offset) : offset < l.length := by
  induction l generalizing offset with
  | nil => simp [strpbrk] at h
  | cons c rest ih =>
    simp only [strpbrk] at h
    split at h
    · cases h
      simp
    · cases hrest : strpbrk accept rest with
      | none => simp [hrest] at h
      | some inner =>
        simp only [hrest, Option.map_some', Option.some.injEq] at h
        have := ih inner hrest
        simp only [List.length_cons]
        omega

/-- With the instance and the method found, `StatementExecutor_Call` returns what the method
returns on the substituted arguments when the substitution returns, and does not return when
the substitution does not. -/
theorem StatementExecutor_Call_of_method {σ : Type} (fuel : Nat) (lib : SlimLib)
    (executor : StatementExecutor σ) (instanceName methodName : Str) (args : SlimList)
    (instanceNode : InstanceNode) (fixture : FixtureNode σ) (node : MethodNode σ)
    (hinstance : GetInstanceNode executor instanceName = some instanceNode)
    (hfixture : findFixture executor instanceNode.fixture = some fixture)
    (hmethod : findMethod fixture.methods methodName = some node) :
    StatementExecutor_Call fuel lib executor instanceName methodName args =
      (replaceSymbols fuel lib executor.symbolTable args).map (fun substituted =>
        ((node.method executor.heap instanceNode.instancePtr substituted).1,
          { executor with
            heap := (node.method executor.heap instanceNode.instancePtr substituted).2
            invoked := executor.invoked ++
              [Invocation.method fixture.name node.name instanceNode.instancePtr substituted] },
          substituted)) := by
  simp only [StatementExecutor_Call, hinstance, hfixture, hmethod]
  cases replaceSymbols fuel lib executor.symbolTable args <;> rfl

/-- The dispatch of a call instruction of at least 4 tokens is the call of the statement
executor on its tokens 2 and 3 and the tokens after them. -/
theorem Dispatch_of_call {σ : Type} (fuel : Nat) (lib : SlimLib) (self : ListExecutor σ)
    (id instanceName methodName : Str) (args : SlimList) :
    Dispatch fuel lib self (id :: "call".toList :: instanceName :: methodName :: args) =
      (StatementExecutor_Call fuel lib self.executor instanceName methodName args).map
        (fun r => (r.1, ⟨r.2.1⟩)) := by
  have h1 : ¬ ("call".toList = "import".toList) := by decide
  have h2 : ¬ ("call".toList = "make".toList) := by decide
  have hcommand : SlimList_GetStringAt lib
      (id :: "call".toList :: instanceName :: methodName :: args) 1 = "call".toList := rfl
  have hlength : ¬ SlimList_GetLength
      (id :: "call".toList :: instanceName :: methodName :: args) < 4 := by
    simp [SlimList_GetLength]
  have hi : SlimList_GetStringAt lib
      (id :: "call".toList :: instanceName :: methodName :: args) 2 = instanceName := rfl
  have hm : SlimList_GetStringAt lib
      (id :: "call".toList :: instanceName :: methodName :: args) 3 = methodName := rfl
  have ht : SlimList_GetTailAt
      (id :: "call".toList :: instanceName :: methodName :: args) 4 = args := rfl
  simp only [Dispatch, hcommand, h1, h2, if_false, if_true, Call, hlength, hi, hm, ht, buyString]
  cases StatementExecutor_Call fuel lib self.executor instanceName methodName args <;> rfl

/-- The dispatch of a callAndAssign instruction of at least 5 tokens is the call of the
statement executor on its tokens 3 and 4 and the tokens after them, followed by the binding of
token 2 to the result. -/
theorem Dispatch_of_callAndAssign {σ : Type} (fuel : Nat) (lib : SlimLib)
    (self : ListExecutor σ) (id symbolName instanceName methodName : Str) (args : SlimList) :
    Dispatch fuel lib self
        (id :: "callAndAssign".toList :: symbolName :: instanceName :: methodName :: args) =
      (StatementExecutor_Call fuel lib self.executor instanceName methodName args).map
        (fun r => (r.1, ⟨StatementExecutor_SetSymbol r.2.1 symbolName r.1⟩)) := by
  have h1 : ¬ ("callAndAssign".toList = "import".toList) := by decide
  have h2 : ¬ ("callAndAssign".toList = "make".toList) := by decide
  have h3 : ¬ ("callAndAssign".toList = "call".toList) := by decide
  have hcommand : SlimList_GetStringAt lib
      (id :: "callAndAssign".toList :: symbolName :: instanceName :: methodName :: args) 1 =
      "callAndAssign".toList := rfl
  have hlength : ¬ SlimList_GetLength
      (id :: "callAndAssign".toList :: symbolName :: instanceName :: methodName :: args) < 5 := by
    simp [SlimList_GetLength]
  have hs : SlimList_GetStringAt lib
      (id :: "callAndAssign".toList :: symbolName :: instanceName :: methodName :: args) 2 =
      symbolName := rfl
  have hi : SlimList_GetStringAt lib
      (id :: "callAndAssign".toList :: symbolName :: instanceName :: methodName :: args) 3 =
      instanceName := rfl
  have hm : SlimList_GetStringAt lib
      (id :: "callAndAssign".toList :: symbolName :: instanceName :: methodName :: args) 4 =
      methodName := rfl
  have ht : SlimList_GetTailAt
      (id :: "callAndAssign".toList :: symbolName :: instanceName :: methodName :: args) 5 =
      args := rfl
  simp only [Dispatch, hcommand, h1, h2, h3, if_false, if_true, CallAndAssign, hlength, hs, hi,
    hm, ht, buyString]
  cases StatementExecutor_Call fuel lib self.executor instanceName methodName args <;> rfl

/-- The substitution of a list of one plain string is the substitution of the string. -/
theorem replaceSymbols_singleton (fuel : Nat) (lib : SlimLib) (table : SymbolTable)
    (element : Str) (hplain : lib.Deserialize element = none) :
    replaceSymbols (fuel + 1) lib table [element] =
      (replaceString fuel table element).map (fun replaced => [replaced]) := by
  simp [replaceSymbols, SlimList_GetLength, SlimList_GetStringAt, SlimList_ReplaceAt, hplain,
    List.range_succ]

/-- With `a` bound to "$a", the substitution of the arguments `["$a"]` returns for no fuel. -/
theorem replaceSymbols_selfTable (fuel : Nat) :
    replaceSymbols fuel plainLib selfTable (tokens ["$a"]) = none := by
  cases fuel with
  | zero => rfl
  | succ fuel =>
    have hstring : replaceString fuel selfTable "$a".toList = none := by
      rw [replaceString, ← replaceStringFromLog_fst, replaceStringFromLog_selfTable]
      rfl
    have := replaceSymbols_singleton fuel plainLib selfTable "$a".toList rfl
    rw [hstring] at this
    exact this

/-- With no symbol bound, the substitution of the arguments `["$a"]` returns them from fuel 3
on. -/
theorem replaceSymbols_unbound (fuel : Nat) :
    replaceSymbols (fuel + 3) plainLib SymbolTable_Create (tokens ["$a"]) =
      some (tokens ["$a"]) := by
  have hlog := replaceStringFromLog_of_unresolved SymbolTable_Create (fuel + 2) [] "$a".toList
    (fun i _ => by simp [resolvesAt, SymbolTable_FindSymbol, SymbolTable_Create])
    (by
      have : "$a".toList.count '$' = 1 := by decide
      omega)
  have hstring : replaceString (fuel + 2) SymbolTable_Create "$a".toList = some "$a".toList := by
    rw [replaceString, ← replaceStringFromLog_fst]
    simp only [List.nil_append, List.length_nil] at hlog
    rw [hlog]
    rfl
  have := replaceSymbols_singleton (fuel + 2) plainLib SymbolTable_Create "$a".toList rfl
  rw [hstring] at this
  exact this

/-! ## Theorems -/

/-- C1 (amended): when every instruction has an id token and a command token and every dispatch
of the run returns, `ListExecutor_Execute` returns a result list as long as the instruction
list, and its n-th entry is the pair of token 0 of the n-th instruction and the result
`Dispatch` produced for that instruction in the state left by the instructions before it,
whatever these returned. -/
theorem ListExecutor_Execute_one_pair_per_instruction {σ : Type} (fuel : Nat) (lib : SlimLib)
    (self : ListExecutor σ) (instructions : List SlimList)
    (htokens : ∀ instruction ∈ instructions, 2 ≤ SlimList_GetLength instruction)
    (hreturns : ∀ (n : Nat) (before : ListExecutor σ) (instruction : SlimList),
      instructions[n]? = some instruction →
      (ListExecutor_Execute fuel lib self (instructions.take n)).map Prod.snd = some before →
      (Dispatch fuel lib before instruction).isSome = true) :
    ∃ (results : List SlimList) (after : ListExecutor σ),
      ListExecutor_Execute fuel lib self instructions = some (results, after) ∧
      results.length = instructions.length ∧
      ∀ n, n < instructions.length →
        ∃ (instruction : SlimList) (id : Str) (before : ListExecutor σ) (result : Str)
          (next : ListExecutor σ),
          instructions[n]? = some instruction ∧ instruction[0]? = some id ∧
          (ListExecutor_Execute fuel lib self (instructions.take n)).map Prod.snd = some before ∧
          Dispatch fuel lib before instruction = some (result, next) ∧
          results[n]? = some [id, result] := by
  induction instructions generalizing self with
  | nil =>
    exact ⟨[], self, rfl, rfl, fun n hn => absurd hn (by simp)⟩
  | cons instruction rest ih =>
    have h0 := hreturns 0 self instruction (by simp) (by simp [ListExecutor_Execute, executeLoop])
    obtain ⟨d, hd⟩ := Option.isSome_iff_exists.mp h0
    obtain ⟨result, next⟩ := d
    have hlen : 2 ≤ instruction.length := htokens instruction (by simp)
    obtain ⟨id, hid⟩ : ∃ id, instruction[0]? = some id := by
      cases instruction with
      | nil => simp at hlen
      | cons id _ => exact ⟨id, by simp⟩
    have hget : SlimList_GetStringAt lib instruction 0 = id := by
      simp [SlimList_GetStringAt, List.getD, hid]
    obtain ⟨results, after, hexec, hlength, hpairs⟩ := ih next
      (fun i hi => htokens i (List.mem_cons_of_mem _ hi))
      (fun n before i hi hbefore => hreturns (n + 1) before i (by simpa using hi) (by
        rw [List.take_succ_cons, ListExecutor_Execute_cons, hd]
        simp only [Option.some_bind, Option.map_map]
        rw [← hbefore]
        cases ListExecutor_Execute fuel lib next (List.take n rest) <;> simp))
    refine ⟨[id, result] :: results, after, ?_, ?_, ?_⟩
    · rw [ListExecutor_Execute_cons, hd]
      simp [hexec, hget]
    · simp [hlength]
    · intro n hn
      cases n with
      | zero =>
        exact ⟨instruction, id, self, result, next, by simp, hid,
          by simp [ListExecutor_Execute, executeLoop], hd, by simp⟩
      | succ n =>
        obtain ⟨i, id2, before, r2, next2, hi, hid2, hbefore, hdisp, hres⟩ :=
          hpairs n (by simpa using hn)
        refine ⟨i, id2, before, r2, next2, by simpa using hi, hid2, ?_, hdisp, by simpa using hres⟩
        rw [List.take_succ_cons, ListExecutor_Execute_cons, hd]
        simp only [Option.some_bind, Option.map_map]
        rw [← hbefore]
        cases ListExecutor_Execute fuel lib next (List.take n rest) <;> simp

/-- C1 (amended) on a batch of a make, a callAndAssign, a call that uses the symbol bound and a
malformed call: four pairs, in order. -/
theorem ListExecutor_Execute_one_pair_per_instruction_witness :
    (∀ instruction ∈ probeBatch, 2 ≤ SlimList_GetLength instruction) ∧
    (∃ (results : List SlimList) (after : ListExecutor Nat),
      ListExecutor_Execute 3 plainLib ⟨probeExecutor⟩ probeBatch = some (results, after) ∧
      results.length = probeBatch.length ∧
      ∀ n, n < probeBatch.length →
        ∃ (instruction : SlimList) (id : Str) (before : ListExecutor Nat) (result : Str)
          (next : ListExecutor Nat),
          probeBatch[n]? = some instruction ∧ instruction[0]? = some id ∧
          (ListExecutor_Execute 3 plainLib ⟨probeExecutor⟩ (probeBatch.take n)).map Prod.snd =
            some before ∧
          Dispatch 3 plainLib before instruction = some (result, next) ∧
          results[n]? = some [id, result]) ∧
    (ListExecutor_Execute 3 plainLib ⟨probeExecutor⟩ probeBatch).map Prod.fst =
      some [tokens ["1", "OK"], tokens ["2", "42"], tokens ["3", "42"],
        tokens ["4", "__EXCEPTION__:message:<<MALFORMED_INSTRUCTION .>>"]] :=
  ⟨by decide,
    ListExecutor_Execute_one_pair_per_instruction 3 plainLib ⟨probeExecutor⟩ probeBatch
      (by decide)
      (by
        intro n before instruction hn hbefore
        rcases n with _ | _ | _ | _ | n
        · obtain rfl : tokens ["1", "make", "p", "Probe", "ok"] = instruction := by
            simpa [probeBatch] using hn
          exact of_option_get _ (fun b => (Dispatch 3 plainLib b _).isSome = true) (by rfl)
            (by rfl) before hbefore
        · obtain rfl : tokens ["2", "callAndAssign", "v", "p", "fortyTwo"] = instruction := by
            simpa [probeBatch] using hn
          exact of_option_get _ (fun b => (Dispatch 3 plainLib b _).isSome = true) (by rfl)
            (by rfl) before hbefore
        · obtain rfl : tokens ["3", "call", "p", "echo", "$v"] = instruction := by
            simpa [probeBatch] using hn
          exact of_option_get _ (fun b => (Dispatch 3 plainLib b _).isSome = true) (by rfl)
            (by rfl) before hbefore
        · obtain rfl : tokens ["4", "call", "p"] = instruction := by
            simpa [probeBatch] using hn
          exact of_option_get _ (fun b => (Dispatch 3 plainLib b _).isSome = true) (by rfl)
            (by rfl) before hbefore
        · simp [probeBatch] at hn),
    by decide⟩

/-- C1 as stated fails when the execution of an instruction does not terminate: every
instruction of the batch has an id and a command, the callAndAssign binds `a` to the "$a" its
method echoes, and the substitution of the "$a" of the following call never ends, so
`ListExecutor_Execute` returns for no fuel. -/
theorem ListExecutor_Execute_diverges :
    (∀ instruction ∈ [tokens ["1", "callAndAssign", "a", "p", "echo", "$a"],
        tokens ["2", "call", "p", "echo", "$a"]],
      2 ≤ SlimList_GetLength instruction) ∧
    ∀ fuel : Nat,
      ListExecutor_Execute fuel plainLib ⟨probeInstanceExecutor⟩
        [tokens ["1", "callAndAssign", "a", "p", "echo", "$a"],
          tokens ["2", "call", "p", "echo", "$a"]] = none := by
  refine ⟨by decide, ?_⟩
  intro fuel
  rcases fuel with _ | _ | _ | fuel
  · rfl
  · rfl
  · rfl
  · have hfirst : tokens ["1", "callAndAssign", "a", "p", "echo", "$a"] =
        "1".toList :: "callAndAssign".toList :: "a".toList :: "p".toList :: "echo".toList ::
          tokens ["$a"] := rfl
    have hsecond : tokens ["2", "call", "p", "echo", "$a"] =
        "2".toList :: "call".toList :: "p".toList :: "echo".toList :: tokens ["$a"] := rfl
    have hcall1 := StatementExecutor_Call_of_method (fuel + 3) plainLib probeInstanceExecutor
      "p".toList "echo".toList (tokens ["$a"])
      { name := "p".toList, instancePtr := some 1, fixture := "Probe".toList }
      { constructor := ExceptionsExample_Create, destructor := ExceptionsExample_Destroy,
        methods := [{ name := "setTrouble".toList, method := fortyTwo },
          { name := "echo".toList, method := echo },
          { name := "fortyTwo".toList, method := fortyTwo }],
        name := "Probe".toList }
      { name := "echo".toList, method := echo } rfl rfl rfl
    have htable1 : probeInstanceExecutor.symbolTable = SymbolTable_Create := rfl
    rw [htable1, replaceSymbols_unbound] at hcall1
    have hdispatch1 := Dispatch_of_callAndAssign (fuel + 3) plainLib
      (ListExecutor.mk probeInstanceExecutor) "1".toList "a".toList "p".toList "echo".toList
      (tokens ["$a"])
    rw [hcall1] at hdispatch1
    simp only [Option.map_some'] at hdispatch1
    rw [ListExecutor_Execute_cons, hfirst, hdispatch1]
    simp only [Option.some_bind]
    rw [ListExecutor_Execute_cons, hsecond, Dispatch_of_call]
    have hcall2 := StatementExecutor_Call_of_method (fuel + 3) plainLib
      (StatementExecutor_SetSymbol
        { probeInstanceExecutor with
          heap := (echo probeInstanceExecutor.heap (some 1) (tokens ["$a"])).2
          invoked := probeInstanceExecutor.invoked ++
            [Invocation.method "Probe".toList "echo".toList (some 1) (tokens ["$a"])] }
        "a".toList (echo probeInstanceExecutor.heap (some 1) (tokens ["$a"])).1)
      "p".toList "echo".toList (tokens ["$a"])
      { name := "p".toList, instancePtr := some 1, fixture := "Probe".toList }
      { constructor := ExceptionsExample_Create, destructor := ExceptionsExample_Destroy,
        methods := [{ name := "setTrouble".toList, method := fortyTwo },
          { name := "echo".toList, method := echo },
          { name := "fortyTwo".toList, method := fortyTwo }],
        name := "Probe".toList }
      { name := "echo".toList, method := echo } rfl rfl rfl
    have htable2 : (StatementExecutor_SetSymbol
        { probeInstanceExecutor with
          heap := (echo probeInstanceExecutor.heap (some 1) (tokens ["$a"])).2
          invoked := probeInstanceExecutor.invoked ++
            [Invocation.method "Probe".toList "echo".toList (some 1) (tokens ["$a"])] }
        "a".toList (echo probeInstanceExecutor.heap (some 1) (tokens ["$a"])).1).symbolTable =
        selfTable := rfl
    rw [htable2, replaceSymbols_selfTable] at hcall2
    erw [hcall2]
    rfl

/-- C2: evaluation at the instruction `["id1","make","inst"]`. `Dispatch` hands a make
instruction of three tokens to `StatementExecutor_Make`, with the token read at index 3, past
the end of the instruction, as class name; with a codec whose out-of-range token is empty the
result is the NO_CLASS text and not a malformed-instruction text. -/
theorem Dispatch_make_of_three_tokens :
    (∀ (fuel : Nat) (lib : SlimLib),
      Dispatch fuel lib ⟨exampleExecutor⟩ (tokens ["id1", "make", "inst"]) =
        (StatementExecutor_Make fuel lib exampleExecutor "inst".toList lib.nullString []).map
          (fun r => (r.1, ⟨r.2.1⟩))) ∧
    (Dispatch 0 plainLib ⟨exampleExecutor⟩ (tokens ["id1", "make", "inst"])).map Prod.fst =
      some "__EXCEPTION__:message:<<NO_CLASS .>>".toList ∧
    (Dispatch 0 plainLib ⟨exampleExecutor⟩ (tokens ["id1", "make", "inst"])).map Prod.fst ≠
      some (MalformedInstruction plainLib (ListExecutor.mk exampleExecutor)
        (tokens ["id1", "make", "inst"])) := by
  refine ⟨?_, by decide, by decide⟩
  intro fuel lib
  have hcommand : SlimList_GetStringAt lib (tokens ["id1", "make", "inst"]) 1 = "make".toList :=
    rfl
  have h2 : SlimList_GetStringAt lib (tokens ["id1", "make", "inst"]) 2 = "inst".toList := rfl
  have h3 : SlimList_GetStringAt lib (tokens ["id1", "make", "inst"]) 3 = lib.nullString := rfl
  have h4 : SlimList_GetTailAt (tokens ["id1", "make", "inst"]) 4 = [] := rfl
  have hnot : ¬ ("make".toList = "import".toList) := by decide
  simp only [Dispatch, hcommand, hnot, if_false, if_true, Make, h2, h3, h4, buyString]
  cases StatementExecutor_Make fuel lib exampleExecutor "inst".toList lib.nullString [] with
  | none => rfl
  | some r => rfl

/-- C3: a call instruction of fewer than 4 tokens and a callAndAssign instruction of fewer than 5
get the malformed-instruction text, cut to at most 127 characters, and `Dispatch` returns the
list executor it was given: no capability is invoked and no registry or symbol is touched. The
rest of a batch is therefore executed exactly as if the malformed instruction were not there,
its pair being put in front of the results. -/
theorem Dispatch_malformed_call {σ : Type} (fuel : Nat) (lib : SlimLib) (self : ListExecutor σ)
    (instruction : SlimList)
    (hshape :
      (SlimList_GetStringAt lib instruction 1 = "call".toList ∧
        SlimList_GetLength instruction < 4) ∨
      (SlimList_GetStringAt lib instruction 1 = "callAndAssign".toList ∧
        SlimList_GetLength instruction < 5)) :
    Dispatch fuel lib self instruction =
      some (snprintf 128 (exceptionTag ++ "MALFORMED_INSTRUCTION ".toList
        ++ lib.ToString instruction ++ ".>>".toList), self) ∧
    (snprintf 128 (exceptionTag ++ "MALFORMED_INSTRUCTION ".toList
        ++ lib.ToString instruction ++ ".>>".toList)).length ≤ 127 ∧
    ∀ rest : List SlimList,
      ListExecutor_Execute fuel lib self (instruction :: rest) =
        (ListExecutor_Execute fuel lib self rest).map (fun r =>
          ([SlimList_GetStringAt lib instruction 0,
            snprintf 128 (exceptionTag ++ "MALFORMED_INSTRUCTION ".toList
              ++ lib.ToString instruction ++ ".>>".toList)] :: r.1, r.2)) := by
  have hdispatch : Dispatch fuel lib self instruction =
      some (snprintf 128 (exceptionTag ++ "MALFORMED_INSTRUCTION ".toList
        ++ lib.ToString instruction ++ ".>>".toList), self) := by
    have h1 : ¬ ("call".toList = "import".toList) := by decide
    have h2 : ¬ ("call".toList = "make".toList) := by decide
    have h3 : ¬ ("callAndAssign".toList = "import".toList) := by decide
    have h4 : ¬ ("callAndAssign".toList = "make".toList) := by decide
    have h5 : ¬ ("callAndAssign".toList = "call".toList) := by decide
    rcases hshape with ⟨hcommand, hlength⟩ | ⟨hcommand, hlength⟩
    · simp only [Dispatch, hcommand, h1, h2, if_false, if_true, Call, hlength,
        MalformedInstruction, buyString]
    · simp only [Dispatch, hcommand, h3, h4, h5, if_false, if_true, CallAndAssign, hlength,
        MalformedInstruction, buyString]
  refine ⟨hdispatch, ?_, ?_⟩
  · simp only [snprintf, List.length_take]
    omega
  · intro rest
    rw [ListExecutor_Execute_cons, hdispatch]
    rfl

/-- C3 on the instruction `["id1","call","inst"]`, followed by a call that reaches the fixture. -/
theorem Dispatch_malformed_call_witness :
    ((SlimList_GetStringAt plainLib (tokens ["id1", "call", "inst"]) 1 = "call".toList ∧
        SlimList_GetLength (tokens ["id1", "call", "inst"]) < 4) ∨
      (SlimList_GetStringAt plainLib (tokens ["id1", "call", "inst"]) 1 = "callAndAssign".toList ∧
        SlimList_GetLength (tokens ["id1", "call", "inst"]) < 5)) ∧
    Dispatch 0 plainLib ⟨exampleExecutor⟩ (tokens ["id1", "call", "inst"]) =
      some ("__EXCEPTION__:message:<<MALFORMED_INSTRUCTION .>>".toList, ⟨exampleExecutor⟩) ∧
    ListExecutor_Execute 2 plainLib ⟨exampleExecutor⟩
        [tokens ["id1", "call", "inst"], tokens ["id2", "make", "inst", "ExceptionsExample", "a"]] =
      (ListExecutor_Execute 2 plainLib ⟨exampleExecutor⟩
        [tokens ["id2", "make", "inst", "ExceptionsExample", "a"]]).map (fun r =>
          ([tokens ["id1", "__EXCEPTION__:message:<<MALFORMED_INSTRUCTION .>>"]] ++ r.1, r.2)) :=
  ⟨by decide,
    (Dispatch_malformed_call 0 plainLib ⟨exampleExecutor⟩ (tokens ["id1", "call", "inst"])
      (by decide)).1,
    (Dispatch_malformed_call 2 plainLib ⟨exampleExecutor⟩ (tokens ["id1", "call", "inst"])
      (by decide)).2.2 [tokens ["id2", "make", "inst", "ExceptionsExample", "a"]]⟩

/-- C4: evaluation at a make whose constructor fails. `StatementExecutor_Make` of instance
"inst" for the fixture ExceptionsExample without arguments reports the constructor failure and
leaves a node named "inst" with a null pointer in the instance registry, which is empty before;
the following call of "setTrouble" on "inst" finds that node and invokes the method on the null
pointer instead of reporting NO_INSTANCE. -/
theorem StatementExecutor_Make_failed_constructor_leaves_node :
    GetInstanceNode exampleExecutor "inst".toList = none ∧
    (StatementExecutor_Make 1 plainLib exampleExecutor "inst".toList "ExceptionsExample".toList
        []).map (fun r => (r.1, r.2.1.instances)) =
      some ("__EXCEPTION__:message:<<COULD_NOT_INVOKE_CONSTRUCTOR ExceptionsExample One arg required.>>".toList,
        [{ name := "inst".toList, instancePtr := none, fixture := "ExceptionsExample".toList }]) ∧
    ((StatementExecutor_Make 1 plainLib exampleExecutor "inst".toList "ExceptionsExample".toList
        []).bind (fun r =>
          StatementExecutor_Call 1 plainLib r.2.1 "inst".toList "setTrouble".toList [])).map
        (fun r => (r.1, r.2.1.invoked)) =
      some ("__EXCEPTION__:message:<<You stink.>>".toList,
        [Invocation.construct "ExceptionsExample".toList [],
          Invocation.method "ExceptionsExample".toList "setTrouble".toList none []]) ∧
    (StatementExecutor_Call 1 plainLib exampleExecutor "inst".toList "setTrouble".toList []).map
        Prod.fst =
      some "__EXCEPTION__:message:<<NO_INSTANCE inst.>>".toList := by
  refine ⟨by decide, by decide, by decide, by decide⟩

/-- C6: for a class name that names no registered fixture, whatever the fuel,
`StatementExecutor_Make` returns the text NO_CLASS with the first 32 characters of the class
name, complete; the executor it leaves differs from the one it was given in the message buffer
only, so the instance registry, the symbol table, the fixture heap and the invocation log are
the same (no constructor was invoked), and the argument list comes back as it was given (no
symbol was substituted). -/
theorem StatementExecutor_Make_unknown_class {σ : Type} (fuel : Nat) (lib : SlimLib)
    (executor : StatementExecutor σ) (instanceName className : Str) (args : SlimList)
    (hunknown : findFixture executor className = none) :
    StatementExecutor_Make fuel lib executor instanceName className args =
      some (exceptionTag ++ "NO_CLASS ".toList ++ className.take 32 ++ ".>>".toList,
        { executor with
          message := exceptionTag ++ "NO_CLASS ".toList ++ className.take 32 ++ ".>>".toList },
        args) := by
  have hfits : snprintf 120
      (exceptionTag ++ "NO_CLASS ".toList ++ precision32 className ++ ".>>".toList) =
      exceptionTag ++ "NO_CLASS ".toList ++ className.take 32 ++ ".>>".toList := by
    rw [snprintf_of_length_le]
    · rfl
    · have h1 : exceptionTag.length = 24 := rfl
      have h2 : "NO_CLASS ".toList.length = 9 := rfl
      have h3 : ".>>".toList.length = 3 := rfl
      have h4 := precision32_length_le className
      simp only [List.length_append, h1, h2, h3]
      omega
  simp only [StatementExecutor_Make, hunknown, hfits]

/-- C6 on `Make("x","Bogus",[])` with the fixture ExceptionsExample registered only. -/
theorem StatementExecutor_Make_unknown_class_witness :
    (StatementExecutor_Make 0 plainLib exampleExecutor "x".toList "Bogus".toList []).map
        (fun r => (r.1, r.2.1.instances, r.2.1.invoked, r.2.2)) =
      some ("__EXCEPTION__:message:<<NO_CLASS Bogus.>>".toList, [], [], []) :=
  congrArg (Option.map (fun r => (r.1, r.2.1.instances, r.2.1.invoked, r.2.2)))
    (StatementExecutor_Make_unknown_class 0 plainLib exampleExecutor "x".toList "Bogus".toList []
      rfl)

/-- The result of `StatementExecutor_Call` when the instance is found and its fixture has no
method of that name: the NO_METHOD_IN_CLASS text as the 120-character buffer holds it, the
executor changed in the message buffer only, the arguments as given. -/
theorem StatementExecutor_Call_of_no_method {σ : Type} (fuel : Nat) (lib : SlimLib)
    (executor : StatementExecutor σ) (instanceName methodName : Str) (args : SlimList)
    (instanceNode : InstanceNode) (fixture : FixtureNode σ)
    (hinstance : GetInstanceNode executor instanceName = some instanceNode)
    (hfixture : findFixture executor instanceNode.fixture = some fixture)
    (hmethod : findMethod fixture.methods methodName = none) :
    StatementExecutor_Call fuel lib executor instanceName methodName args =
      some (snprintf 120 (exceptionTag ++ "NO_METHOD_IN_CLASS ".toList ++ methodName.take 32
          ++ "[".toList ++ decimal args.length ++ "] ".toList ++ fixture.name.take 32
          ++ ".>>".toList),
        { executor with
          message := snprintf 120 (exceptionTag ++ "NO_METHOD_IN_CLASS ".toList
            ++ methodName.take 32 ++ "[".toList ++ decimal args.length ++ "] ".toList
            ++ fixture.name.take 32 ++ ".>>".toList) },
        args) := by
  simp only [StatementExecutor_Call, hinstance, hfixture, hmethod, precision32,
    SlimList_GetLength]

/-- C7 (amended): `StatementExecutor_Call` fails in lookup order, for every fuel. With no
instance of that name the result is the complete NO_INSTANCE text with the first 32 characters
of the instance name, whatever the method name. With an instance whose fixture has no method of
that name the result is the NO_METHOD_IN_CLASS text with the first 32 characters of the method
name, the number of arguments and the first 32 characters of the fixture name, cut to 119
characters; it is complete when there are fewer than 1000000 arguments. In both cases the
executor returned differs from the one given in the message buffer only (no method invoked, the
symbol table as before) and the arguments come back as given. -/
theorem StatementExecutor_Call_lookup_failures {σ : Type} (fuel : Nat) (lib : SlimLib)
    (executor : StatementExecutor σ) (instanceName methodName : Str) (args : SlimList) :
    (GetInstanceNode executor instanceName = none →
      StatementExecutor_Call fuel lib executor instanceName methodName args =
        some (exceptionTag ++ "NO_INSTANCE ".toList ++ instanceName.take 32 ++ ".>>".toList,
          { executor with
            message :=
              exceptionTag ++ "NO_INSTANCE ".toList ++ instanceName.take 32 ++ ".>>".toList },
          args)) ∧
    (∀ (instanceNode : InstanceNode) (fixture : FixtureNode σ),
      GetInstanceNode executor instanceName = some instanceNode →
      findFixture executor instanceNode.fixture = some fixture →
      findMethod fixture.methods methodName = none →
      StatementExecutor_Call fuel lib executor instanceName methodName args =
        some (snprintf 120 (exceptionTag ++ "NO_METHOD_IN_CLASS ".toList ++ methodName.take 32
            ++ "[".toList ++ decimal args.length ++ "] ".toList ++ fixture.name.take 32
            ++ ".>>".toList),
          { executor with
            message := snprintf 120 (exceptionTag ++ "NO_METHOD_IN_CLASS ".toList
              ++ methodName.take 32 ++ "[".toList ++ decimal args.length ++ "] ".toList
              ++ fixture.name.take 32 ++ ".>>".toList) },
          args) ∧
      (args.length < 1000000 →
        snprintf 120 (exceptionTag ++ "NO_METHOD_IN_CLASS ".toList ++ methodName.take 32
            ++ "[".toList ++ decimal args.length ++ "] ".toList ++ fixture.name.take 32
            ++ ".>>".toList) =
          exceptionTag ++ "NO_METHOD_IN_CLASS ".toList ++ methodName.take 32
            ++ "[".toList ++ decimal args.length ++ "] ".toList ++ fixture.name.take 32
            ++ ".>>".toList)) := by
  refine ⟨?_, ?_⟩
  · intro hnone
    have hfits : snprintf 120
        (exceptionTag ++ "NO_INSTANCE ".toList ++ precision32 instanceName ++ ".>>".toList) =
        exceptionTag ++ "NO_INSTANCE ".toList ++ instanceName.take 32 ++ ".>>".toList := by
      rw [snprintf_of_length_le]
      · rfl
      · have h1 : exceptionTag.length = 24 := rfl
        have h2 : "NO_INSTANCE ".toList.length = 12 := rfl
        have h3 : ".>>".toList.length = 3 := rfl
        have h4 := precision32_length_le instanceName
        simp only [List.length_append, h1, h2, h3]
        omega
    simp only [StatementExecutor_Call, hnone, hfits]
  · intro instanceNode fixture hinstance hfixture hmethod
    refine ⟨StatementExecutor_Call_of_no_method fuel lib executor instanceName methodName args
      instanceNode fixture hinstance hfixture hmethod, ?_⟩
    intro hcount
    apply snprintf_of_length_le
    have h1 : exceptionTag.length = 24 := rfl
    have h2 : "NO_METHOD_IN_CLASS ".toList.length = 19 := rfl
    have h3 : "[".toList.length = 1 := rfl
    have h4 : "] ".toList.length = 2 := rfl
    have h5 : ".>>".toList.length = 3 := rfl
    have h6 := precision32_length_le methodName
    have h7 := precision32_length_le fixture.name
    have h8 := decimal_length_le args.length hcount
    simp only [precision32] at h6 h7
    simp only [List.length_append, h1, h2, h3, h4, h5]
    omega

/-- C7 (amended) on an executor holding the instance "inst" of ExceptionsExample: a call on the
unknown instance "nobody" and a call of the unknown method "nope" with one argument. -/
theorem StatementExecutor_Call_lookup_failures_witness :
    GetInstanceNode instanceExecutor "nobody".toList = none ∧
    StatementExecutor_Call 0 plainLib instanceExecutor "nobody".toList "setTrouble".toList
        (tokens ["$a"]) =
      some ("__EXCEPTION__:message:<<NO_INSTANCE nobody.>>".toList,
        { instanceExecutor with
          message := "__EXCEPTION__:message:<<NO_INSTANCE nobody.>>".toList },
        tokens ["$a"]) ∧
    StatementExecutor_Call 0 plainLib instanceExecutor "inst".toList "nope".toList
        (tokens ["$a"]) =
      some ("__EXCEPTION__:message:<<NO_METHOD_IN_CLASS nope[1] ExceptionsExample.>>".toList,
        { instanceExecutor with
          message :=
            "__EXCEPTION__:message:<<NO_METHOD_IN_CLASS nope[1] ExceptionsExample.>>".toList },
        tokens ["$a"]) :=
  ⟨by decide,
    (StatementExecutor_Call_lookup_failures 0 plainLib instanceExecutor "nobody".toList
      "setTrouble".toList (tokens ["$a"])).1 (by decide),
    ((StatementExecutor_Call_lookup_failures 0 plainLib instanceExecutor "inst".toList
      "nope".toList (tokens ["$a"])).2
      { name := "inst".toList, instancePtr := some 1, fixture := "ExceptionsExample".toList }
      { constructor := ExceptionsExample_Create, destructor := ExceptionsExample_Destroy,
        methods := [{ name := "setTrouble".toList, method := setTrouble }],
        name := "ExceptionsExample".toList } rfl rfl rfl).1⟩

/-- C7 as stated fails on a call with one million arguments: the instance "i" exists, its
fixture of the 32-character name `longClassName` has no method, and the text for the
32-character method name `longMethodName` has 120 characters, of which the buffer keeps 119:
the result lacks the final character. -/
theorem StatementExecutor_Call_cuts_no_method_text :
    GetInstanceNode longNameExecutor "i".toList =
      some { name := "i".toList, instancePtr := some 1, fixture := longClassName } ∧
    (findFixture longNameExecutor longClassName).map (fun fixture =>
      (fixture.name, fixture.methods.length)) = some (longClassName, 0) ∧
    (StatementExecutor_Call 0 plainLib longNameExecutor "i".toList longMethodName
        (List.replicate 1000000 [])).map Prod.fst =
      some (exceptionTag ++ "NO_METHOD_IN_CLASS ".toList ++ longMethodName ++ "[1000000] ".toList
        ++ longClassName ++ ".>".toList) ∧
    (StatementExecutor_Call 0 plainLib longNameExecutor "i".toList longMethodName
        (List.replicate 1000000 [])).map Prod.fst ≠
      some (exceptionTag ++ "NO_METHOD_IN_CLASS ".toList ++ longMethodName ++ "[".toList
        ++ decimal (List.replicate 1000000 ([] : Str)).length ++ "] ".toList ++ longClassName
        ++ ".>>".toList) := by
  have hcall := StatementExecutor_Call_of_no_method 0 plainLib longNameExecutor "i".toList
    longMethodName (List.replicate 1000000 [])
    { name := "i".toList, instancePtr := some 1, fixture := longClassName }
    { constructor := ExceptionsExample_Create, destructor := ExceptionsExample_Destroy,
      methods := [], name := longClassName } rfl rfl rfl
  refine ⟨by decide, by decide, ?_, ?_⟩
  · rw [hcall]
    simp only [Option.map_some', List.length_replicate]
    decide
  · rw [hcall]
    simp only [Option.map_some', List.length_replicate]
    decide

/-- C8 (amended): when the instance registry holds a node of that name with no node of that
name in front of it, the fixture of that node has a method of that name and the substitution of
the arguments returns, `StatementExecutor_Call` finds that node, whatever nodes of the same name
lie behind it, and returns, unchanged, the string the method returns on the node's handle and
the substituted arguments; the method is invoked once, on that handle and those arguments. The
node in front is the newest: a
`StatementExecutor_Make` under that name on a registered class makes its own node, with the
pointer its constructor returned and its own fixture, the one the lookup finds afterwards. -/
theorem StatementExecutor_Call_returns_method_value {σ : Type} (fuel : Nat) (lib : SlimLib)
    (executor : StatementExecutor σ) (instanceName methodName : Str)
    (args substituted : SlimList) (newer older : List InstanceNode)
    (instanceNode : InstanceNode) (fixture : FixtureNode σ) (node : MethodNode σ)
    (hregistry : executor.instances = newer ++ instanceNode :: older)
    (hnewer : ∀ other ∈ newer, other.name ≠ instanceName)
    (hname : instanceNode.name = instanceName)
    (hfixture : findFixture executor instanceNode.fixture = some fixture)
    (hmethod : findMethod fixture.methods methodName = some node)
    (hsub : replaceSymbols fuel lib executor.symbolTable args = some substituted) :
    GetInstanceNode executor instanceName = some instanceNode ∧
    StatementExecutor_Call fuel lib executor instanceName methodName args =
      some ((node.method executor.heap instanceNode.instancePtr substituted).1,
        { executor with
          heap := (node.method executor.heap instanceNode.instancePtr substituted).2
          invoked := executor.invoked ++
            [Invocation.method fixture.name node.name instanceNode.instancePtr substituted] },
        substituted) ∧
    ∀ (className : Str) (makeArgs makeSubstituted : SlimList) (fixtureNode : FixtureNode σ),
      findFixture executor className = some fixtureNode →
      replaceSymbols fuel lib executor.symbolTable makeArgs = some makeSubstituted →
      ∃ (result : Str) (after : StatementExecutor σ),
        StatementExecutor_Make fuel lib executor instanceName className makeArgs =
          some (result, after, makeSubstituted) ∧
        GetInstanceNode after instanceName =
          some { name := instanceName,
                 instancePtr :=
                   (fixtureNode.constructor executor.heap makeSubstituted).instancePtr,
                 fixture := fixtureNode.name } ∧
        findFixture after fixtureNode.name = some fixtureNode := by
  have hinstance : GetInstanceNode executor instanceName = some instanceNode := by
    simp only [GetInstanceNode, hregistry]
    exact find_instance_append newer older instanceNode instanceName hnewer hname
  refine ⟨hinstance, ?_, ?_⟩
  · simp only [StatementExecutor_Call, hinstance, hfixture, hmethod, hsub]
  · intro className makeArgs makeSubstituted fixtureNode hfind hmakeSub
    obtain ⟨result, after, hmake, hinstances, hfixtures⟩ :=
      StatementExecutor_Make_links_at_head fuel lib executor instanceName className makeArgs
        makeSubstituted fixtureNode hfind hmakeSub
    refine ⟨result, after, hmake, ?_, ?_⟩
    · simp [GetInstanceNode, hinstances, List.find?]
    · have hsame : fixtureNode.name = className :=
        findFixture_name executor className fixtureNode hfind
      simp only [findFixture, hfixtures, hsame]
      exact hfind

/-- C8 (amended) on two instances registered under the name "inst", of ExceptionsExample first
(handle 1) and of Probe afterwards (handle 2), with `v` bound to "7": the call of "echo" with
the argument "$v" runs the method of Probe on handle 2 and on the substituted argument "7", and
returns what the method returns. -/
theorem StatementExecutor_Call_returns_method_value_witness :
    boundExecutor.instances =
      [{ name := "inst".toList, instancePtr := some 2, fixture := "Probe".toList },
        { name := "inst".toList, instancePtr := some 1, fixture := "ExceptionsExample".toList }] ∧
    replaceSymbols 3 plainLib boundExecutor.symbolTable (tokens ["$v"]) = some (tokens ["7"]) ∧
    (StatementExecutor_Call 3 plainLib boundExecutor "inst".toList "echo".toList
        (tokens ["$v"])).map (fun r => (r.1, r.2.1.invoked, r.2.2)) =
      some ("7".toList,
        [Invocation.construct "ExceptionsExample".toList (tokens ["ok"]),
          Invocation.construct "Probe".toList (tokens ["ok"]),
          Invocation.method "Probe".toList "echo".toList (some 2) (tokens ["7"])],
        tokens ["7"]) :=
  ⟨by decide, by decide,
    congrArg (Option.map (fun r => (r.1, r.2.1.invoked, r.2.2)))
      (StatementExecutor_Call_returns_method_value 3 plainLib boundExecutor "inst".toList
        "echo".toList (tokens ["$v"]) (tokens ["7"]) []
        [{ name := "inst".toList, instancePtr := some 1, fixture := "ExceptionsExample".toList }]
        { name := "inst".toList, instancePtr := some 2, fixture := "Probe".toList }
        { constructor := ExceptionsExample_Create, destructor := ExceptionsExample_Destroy,
          methods := [{ name := "setTrouble".toList, method := fortyTwo },
            { name := "echo".toList, method := echo },
            { name := "fortyTwo".toList, method := fortyTwo }],
          name := "Probe".toList }
        { name := "echo".toList, method := echo }
        rfl (by simp) rfl rfl rfl rfl).2.1⟩

/-- C8 as stated fails when the substitution of the arguments does not terminate: the instance
"p" is registered and its fixture Probe has the method "echo", yet with `a` bound to "$a" the
call of "echo" on "p" with the argument "$a" returns for no fuel. -/
theorem StatementExecutor_Call_diverges :
    GetInstanceNode selfExecutor "p".toList =
      some { name := "p".toList, instancePtr := some 1, fixture := "Probe".toList } ∧
    ((findFixture selfExecutor "Probe".toList).bind (fun fixture =>
      findMethod fixture.methods "echo".toList)).map (fun node => node.name) =
      some "echo".toList ∧
    ∀ fuel : Nat,
      StatementExecutor_Call fuel plainLib selfExecutor "p".toList "echo".toList
        (tokens ["$a"]) = none := by
  refine ⟨by decide, by decide, ?_⟩
  intro fuel
  have hcall := StatementExecutor_Call_of_method fuel plainLib selfExecutor "p".toList
    "echo".toList (tokens ["$a"])
    { name := "p".toList, instancePtr := some 1, fixture := "Probe".toList }
    { constructor := ExceptionsExample_Create, destructor := ExceptionsExample_Destroy,
      methods := [{ name := "setTrouble".toList, method := fortyTwo },
        { name := "echo".toList, method := echo },
        { name := "fortyTwo".toList, method := fortyTwo }],
      name := "Probe".toList }
    { name := "echo".toList, method := echo } rfl rfl rfl
  have htable : selfExecutor.symbolTable = selfTable := rfl
  rw [hcall, htable, replaceSymbols_selfTable]
  rfl

/-- C9: after `StatementExecutor_RegisterMethod` on a class name, a method name and a method,
the class name finds a fixture of that name in whose method list the method name finds the
method just registered, whatever was registered under it before; when the class name was
unknown the fixture is a new node in front of the list, with `Null_Create`, `Null_Destroy`
and that one method; when it was known the fixture list keeps its names (no node is added)
and the fixture found gains the method in front of its list; the method found for any other
pair of class name and method name is the one found before. -/
theorem StatementExecutor_RegisterMethod_lookup {σ : Type} (executor : StatementExecutor σ)
    (className methodName : Str) (method : Method σ) :
    (∃ fixture : FixtureNode σ,
      findFixture (StatementExecutor_RegisterMethod executor className methodName method)
        className = some fixture ∧
      fixture.name = className ∧
      (findMethod fixture.methods methodName).map (fun node => node.method) = some method) ∧
    (findFixture executor className = none →
      (StatementExecutor_RegisterMethod executor className methodName method).fixtures =
        { constructor := Null_Create, destructor := Null_Destroy,
          methods := [{ name := methodName, method := method }], name := className }
          :: executor.fixtures) ∧
    (∀ known : FixtureNode σ, findFixture executor className = some known →
      (StatementExecutor_RegisterMethod executor className methodName method).fixtures.map
          (fun node => node.name) = executor.fixtures.map (fun node => node.name) ∧
      findFixture (StatementExecutor_RegisterMethod executor className methodName method)
          className =
        some { known with
          methods := { name := methodName, method := method } :: known.methods }) ∧
    (∀ otherClass otherMethod : Str, otherClass ≠ className ∨ otherMethod ≠ methodName →
      (findFixture (StatementExecutor_RegisterMethod executor className methodName method)
          otherClass).bind (fun fixture =>
        (findMethod fixture.methods otherMethod).map (fun node => node.method)) =
      (findFixture executor otherClass).bind (fun fixture =>
        (findMethod fixture.methods otherMethod).map (fun node => node.method))) := by
  have hkeeps : ∀ node : FixtureNode σ,
      ({ node with methods := { name := methodName, method := method } :: node.methods } :
        FixtureNode σ).name = node.name := fun _ => rfl
  have hknownFind : ∀ known : FixtureNode σ, findFixture executor className = some known →
      findFixture (StatementExecutor_RegisterMethod executor className methodName method)
          className =
        some { known with
          methods := { name := methodName, method := method } :: known.methods } := by
    intro known hknown
    simp only [findFixture, RegisterMethod_fixtures_of_known executor className methodName
      method known hknown]
    exact find_modifyFixture_same _ className hkeeps executor.fixtures known hknown
  have hunknownFind : findFixture executor className = none →
      findFixture (StatementExecutor_RegisterMethod executor className methodName method)
          className =
        some
          { constructor := Null_Create, destructor := Null_Destroy,
            methods := [{ name := methodName, method := method }], name := className } := by
    intro hunknown
    simp [findFixture, RegisterMethod_fixtures_of_unknown executor className methodName
      method hunknown, List.find?]
  refine ⟨?_, RegisterMethod_fixtures_of_unknown executor className methodName method, ?_, ?_⟩
  · cases hfind : findFixture executor className with
    | none =>
      exact ⟨_, hunknownFind hfind, rfl, by simp [findMethod, List.find?]⟩
    | some known =>
      exact ⟨_, hknownFind known hfind, findFixture_name executor className known hfind,
        by simp [findMethod, List.find?]⟩
  · intro known hknown
    refine ⟨?_, hknownFind known hknown⟩
    rw [RegisterMethod_fixtures_of_known executor className methodName method known hknown]
    exact modifyFixture_names _ className hkeeps executor.fixtures
  · intro otherClass otherMethod hother
    by_cases hclass : otherClass = className
    · subst hclass
      have hmethodName : otherMethod ≠ methodName := by
        rcases hother with h | h
        · exact absurd rfl h
        · exact h
      cases hfind : findFixture executor otherClass with
      | none =>
        rw [hunknownFind hfind]
        simp [findMethod, List.find?, hmethodName]
      | some known =>
        rw [hknownFind known hfind]
        simp [findMethod, List.find?, hmethodName]
    · cases hfind : findFixture executor className with
      | none =>
        have hne : ¬ className = otherClass := fun h => hclass h.symm
        simp [findFixture, RegisterMethod_fixtures_of_unknown executor className methodName
          method hfind, List.find?, hne]
      | some known =>
        simp only [findFixture, RegisterMethod_fixtures_of_known executor className methodName
          method known hfind]
        rw [find_modifyFixture_other _ className otherClass hkeeps hclass executor.fixtures]

/-- C9 on the method "m" registered on "F" as `fortyTwo` and then as `echo`: the lookup finds
`echo`, and a call of "m" on an instance of "F" returns its argument. -/
theorem StatementExecutor_RegisterMethod_lookup_witness :
    (∃ fixture : FixtureNode Nat,
      findFixture twiceExecutor "F".toList = some fixture ∧
      fixture.name = "F".toList ∧
      (findMethod fixture.methods "m".toList).map (fun node => node.method) = some echo) ∧
    twiceExecutor.fixtures.map (fun node => (node.name, node.methods.map (fun m => m.name))) =
      [("F".toList, [ "m".toList, "m".toList ])] ∧
    ((StatementExecutor_Make 2 plainLib twiceExecutor "f".toList "F".toList
        (tokens ["ok"])).bind (fun r =>
      StatementExecutor_Call 2 plainLib r.2.1 "f".toList "m".toList (tokens ["hello"]))).map
        Prod.fst = some "hello".toList :=
  ⟨(StatementExecutor_RegisterMethod_lookup
      (StatementExecutor_RegisterMethod
        (StatementExecutor_RegisterFixture (StatementExecutor_Create 0) "F".toList
          ExceptionsExample_Create ExceptionsExample_Destroy)
        "F".toList "m".toList fortyTwo)
      "F".toList "m".toList echo).1,
    by decide, by decide⟩

/-- C10 (amended): a callAndAssign instruction of at least 5 tokens whose call returns gets the
string `StatementExecutor_Call` returns as its result, and leaves the executor of that call with
the symbol name bound to that very string, whatever it was bound to before. When the symbol name
consists of alphanumeric characters only, substituting in "$" followed by the symbol name is
substituting in the bound string, and a one-operand argument list holding that text as a plain
string becomes the substituted bound string. -/
theorem CallAndAssign_binds_result {σ : Type} (fuel : Nat) (lib : SlimLib)
    (self : ListExecutor σ) (id symbolName instanceName methodName : Str) (args : SlimList)
    (called : Str) (executor : StatementExecutor σ) (substituted : SlimList)
    (hcall : StatementExecutor_Call fuel lib self.executor instanceName methodName args =
      some (called, executor, substituted)) :
    Dispatch fuel lib self
        (id :: "callAndAssign".toList :: symbolName :: instanceName :: methodName :: args) =
      some (called, ⟨StatementExecutor_SetSymbol executor symbolName called⟩) ∧
    SymbolTable_FindSymbol (StatementExecutor_SetSymbol executor symbolName called).symbolTable
      symbolName symbolName.length = some called ∧
    ((∀ c ∈ symbolName, isalnum c = true) → ∀ later : Nat,
      replaceString (later + 1)
          (StatementExecutor_SetSymbol executor symbolName called).symbolTable
          ("$".toList ++ symbolName) =
        replaceString later
          (StatementExecutor_SetSymbol executor symbolName called).symbolTable called ∧
      (lib.Deserialize ("$".toList ++ symbolName) = none →
        replaceSymbols (later + 2) lib
            (StatementExecutor_SetSymbol executor symbolName called).symbolTable
            ["$".toList ++ symbolName] =
          (replaceString later
            (StatementExecutor_SetSymbol executor symbolName called).symbolTable called).map
            (fun replaced => [replaced]))) := by
  have hbound : SymbolTable_FindSymbol
      (StatementExecutor_SetSymbol executor symbolName called).symbolTable
      symbolName symbolName.length = some called := by
    simp [SymbolTable_FindSymbol, StatementExecutor_SetSymbol, SymbolTable_SetSymbol]
  refine ⟨?_, hbound, ?_⟩
  · have h1 : ¬ ("callAndAssign".toList = "import".toList) := by decide
    have h2 : ¬ ("callAndAssign".toList = "make".toList) := by decide
    have h3 : ¬ ("callAndAssign".toList = "call".toList) := by decide
    have hcommand : SlimList_GetStringAt lib
        (id :: "callAndAssign".toList :: symbolName :: instanceName :: methodName :: args) 1 =
        "callAndAssign".toList := rfl
    have hlength : ¬ SlimList_GetLength
        (id :: "callAndAssign".toList :: symbolName :: instanceName :: methodName :: args) < 5 := by
      simp [SlimList_GetLength]
    have hs : SlimList_GetStringAt lib
        (id :: "callAndAssign".toList :: symbolName :: instanceName :: methodName :: args) 2 =
        symbolName := rfl
    have hi : SlimList_GetStringAt lib
        (id :: "callAndAssign".toList :: symbolName :: instanceName :: methodName :: args) 3 =
        instanceName := rfl
    have hm : SlimList_GetStringAt lib
        (id :: "callAndAssign".toList :: symbolName :: instanceName :: methodName :: args) 4 =
        methodName := rfl
    have ht : SlimList_GetTailAt
        (id :: "callAndAssign".toList :: symbolName :: instanceName :: methodName :: args) 5 =
        args := rfl
    simp only [Dispatch, hcommand, h1, h2, h3, if_false, if_true, CallAndAssign, hlength, hs, hi,
      hm, ht, hcall, buyString]
  · intro halnum later
    have hstep : replaceString (later + 1)
          (StatementExecutor_SetSymbol executor symbolName called).symbolTable
          ("$".toList ++ symbolName) =
        replaceString later
          (StatementExecutor_SetSymbol executor symbolName called).symbolTable called := by
      have hdollar : strpbrk "$".toList ("$".toList ++ symbolName) = some 0 := by
        show strpbrk "$".toList ('$' :: symbolName) = some 0
        simp [strpbrk]
      have hrest : List.drop 1 ("$".toList ++ symbolName) = symbolName := rfl
      have hafter : List.drop (1 + symbolName.length) ("$".toList ++ symbolName) = [] := by
        apply List.drop_eq_nil_of_le
        show ('$' :: symbolName).length ≤ _
        simp
        omega
      have hfound := hbound
      rw [← lengthOfSymbol_of_alnum symbolName halnum] at hfound hafter
      simp only [replaceString, replaceStringFrom, List.drop_zero, hdollar, Nat.zero_add,
        Nat.add_zero, hrest, hfound, hafter, List.take_zero, List.nil_append, List.append_nil]
    refine ⟨hstep, ?_⟩
    intro hplain
    have hcons : "$".toList ++ symbolName = '$' :: symbolName := rfl
    rw [hcons] at hplain hstep
    simp [replaceSymbols, SlimList_GetLength, SlimList_GetStringAt, SlimList_ReplaceAt, hplain,
      hstep, List.range_succ]

/-- C10 (amended) on a callAndAssign of the method "fortyTwo" into the symbol "v": the result
is "42", "v" resolves to "42", and the operand "$v" of the next call reaches the method "echo"
as "42". -/
theorem CallAndAssign_binds_result_witness :
    (Dispatch 1 plainLib ⟨probeInstanceExecutor⟩
        (tokens ["1", "callAndAssign", "v", "p", "fortyTwo"])).map Prod.fst =
      some "42".toList ∧
    (∀ c ∈ "v".toList, isalnum c = true) ∧
    (ListExecutor_Execute 3 plainLib ⟨probeInstanceExecutor⟩
        [tokens ["1", "callAndAssign", "v", "p", "fortyTwo"],
          tokens ["2", "call", "p", "echo", "$v"]]).map Prod.fst =
      some [tokens ["1", "42"], tokens ["2", "42"]] :=
  ⟨congrArg (Option.map Prod.fst)
      (CallAndAssign_binds_result 1 plainLib ⟨probeInstanceExecutor⟩ "1".toList "v".toList
        "p".toList "fortyTwo".toList [] "42".toList
        { probeInstanceExecutor with
          invoked := probeInstanceExecutor.invoked ++
            [Invocation.method "Probe".toList "fortyTwo".toList (some 1) []] }
        [] rfl).1,
    by decide, by decide⟩

/-- C10 as stated fails on a symbol name with a blank: after the callAndAssign into "a b" the
symbol "a b" resolves to "42", yet the operand "$a b" of the next call refers to the symbol
"a", which is unbound, and reaches the method "echo" as it is. -/
theorem CallAndAssign_name_with_blank :
    (Dispatch 1 plainLib ⟨probeInstanceExecutor⟩
        (tokens ["1", "callAndAssign", "a b", "p", "fortyTwo"])).map
        (fun r => (r.1, SymbolTable_FindSymbol r.2.executor.symbolTable "a b".toList 3)) =
      some ("42".toList, some "42".toList) ∧
    (ListExecutor_Execute 3 plainLib ⟨probeInstanceExecutor⟩
        [tokens ["1", "callAndAssign", "a b", "p", "fortyTwo"],
          tokens ["2", "call", "p", "echo", "$a b"]]).map Prod.fst =
      some [tokens ["1", "42"], tokens ["2", "$a b"]] ∧
    (ListExecutor_Execute 3 plainLib ⟨probeInstanceExecutor⟩
        [tokens ["1", "callAndAssign", "a b", "p", "fortyTwo"],
          tokens ["2", "call", "p", "echo", "$a b"]]).map Prod.fst ≠
      some [tokens ["1", "42"], tokens ["2", "42"]] := by
  refine ⟨by decide, by decide, by decide⟩

/-- C11: an instruction whose command is "import" gets "OK" and an instruction whose command is
none of "import", "make", "call" and "callAndAssign" gets the INVALID_STATEMENT text built from
its tokens 0 and 1, as the 128-character buffer holds it: at most 127 characters, and the whole
text when that has at most 127. In both cases `Dispatch` returns the list executor it was given,
for every fuel. -/
theorem Dispatch_import_and_invalid_command {σ : Type} (fuel : Nat) (lib : SlimLib)
    (self : ListExecutor σ) (instruction : SlimList) :
    (SlimList_GetStringAt lib instruction 1 = "import".toList →
      Dispatch fuel lib self instruction = some ("OK".toList, self)) ∧
    (SlimList_GetStringAt lib instruction 1 ≠ "import".toList →
      SlimList_GetStringAt lib instruction 1 ≠ "make".toList →
      SlimList_GetStringAt lib instruction 1 ≠ "call".toList →
      SlimList_GetStringAt lib instruction 1 ≠ "callAndAssign".toList →
      Dispatch fuel lib self instruction =
        some (snprintf 128 (exceptionTag ++ "INVALID_STATEMENT: [\"".toList
          ++ SlimList_GetStringAt lib instruction 0 ++ "\", \"".toList
          ++ SlimList_GetStringAt lib instruction 1 ++ "\"].>>".toList), self) ∧
      (snprintf 128 (exceptionTag ++ "INVALID_STATEMENT: [\"".toList
          ++ SlimList_GetStringAt lib instruction 0 ++ "\", \"".toList
          ++ SlimList_GetStringAt lib instruction 1 ++ "\"].>>".toList)).length ≤ 127 ∧
      ((exceptionTag ++ "INVALID_STATEMENT: [\"".toList
          ++ SlimList_GetStringAt lib instruction 0 ++ "\", \"".toList
          ++ SlimList_GetStringAt lib instruction 1 ++ "\"].>>".toList).length ≤ 127 →
        snprintf 128 (exceptionTag ++ "INVALID_STATEMENT: [\"".toList
          ++ SlimList_GetStringAt lib instruction 0 ++ "\", \"".toList
          ++ SlimList_GetStringAt lib instruction 1 ++ "\"].>>".toList) =
        exceptionTag ++ "INVALID_STATEMENT: [\"".toList
          ++ SlimList_GetStringAt lib instruction 0 ++ "\", \"".toList
          ++ SlimList_GetStringAt lib instruction 1 ++ "\"].>>".toList)) := by
  refine ⟨?_, ?_⟩
  · intro himport
    simp only [Dispatch, himport, if_true, Import, buyString]
  · intro h1 h2 h3 h4
    refine ⟨?_, ?_, ?_⟩
    · simp only [Dispatch, h1, h2, h3, h4, if_false, InvalidCommand, buyString]
    · simp only [snprintf, List.length_take]
      omega
    · intro hfits
      exact snprintf_of_length_le 128 _ hfits

/-- C11 on the instructions `["4","foo"]` and `["5","import","path"]`. -/
theorem Dispatch_import_and_invalid_command_witness :
    Dispatch 0 plainLib ⟨exampleExecutor⟩ (tokens ["5", "import", "path"]) =
      some ("OK".toList, ⟨exampleExecutor⟩) ∧
    Dispatch 0 plainLib ⟨exampleExecutor⟩ (tokens ["4", "foo"]) =
      some ("__EXCEPTION__:message:<<INVALID_STATEMENT: [\"4\", \"foo\"].>>".toList,
        ⟨exampleExecutor⟩) :=
  ⟨(Dispatch_import_and_invalid_command 0 plainLib ⟨exampleExecutor⟩
      (tokens ["5", "import", "path"])).1 rfl,
    ((Dispatch_import_and_invalid_command 0 plainLib ⟨exampleExecutor⟩
      (tokens ["4", "foo"])).2 (by decide) (by decide) (by decide) (by decide)).1⟩

/-- C12: evaluation at a session with a failed make. After the makes of "a" (handle 1), of "b"
(the constructor fails) and of "c" (handle 2), the instance registry holds three nodes, and
`StatementExecutor_Destroy` invokes the destructor three times: on handle 2, on the null pointer
of the failed make and on handle 1, not only on the handles of the two successful makes. -/
theorem StatementExecutor_Destroy_tears_down_failed_make :
    teardownExecutor.instances =
      [{ name := "c".toList, instancePtr := some 2, fixture := "ExceptionsExample".toList },
        { name := "b".toList, instancePtr := none, fixture := "ExceptionsExample".toList },
        { name := "a".toList, instancePtr := some 1, fixture := "ExceptionsExample".toList }] ∧
    teardownExecutor.invoked =
      [Invocation.construct "ExceptionsExample".toList (tokens ["ok"]),
        Invocation.construct "ExceptionsExample".toList (tokens []),
        Invocation.construct "ExceptionsExample".toList (tokens ["ok"])] ∧
    (StatementExecutor_Destroy teardownExecutor).2 =
      teardownExecutor.invoked ++
        [Invocation.destruct "ExceptionsExample".toList (some 2),
          Invocation.destruct "ExceptionsExample".toList none,
          Invocation.destruct "ExceptionsExample".toList (some 1)] ∧
    (StatementExecutor_Destroy teardownExecutor).2 ≠
      teardownExecutor.invoked ++
        [Invocation.destruct "ExceptionsExample".toList (some 2),
          Invocation.destruct "ExceptionsExample".toList (some 1)] := by
  refine ⟨by decide, by decide, by decide, by decide⟩

/-- C13: when no marker of the string is followed by a bound name (the alphanumeric run after
the marker, possibly empty), `replaceString` returns the string unchanged as soon as the fuel
exceeds the number of markers of the string. -/
theorem replaceString_of_unresolved (table : SymbolTable) (fuel : Nat) (string : Str)
    (hunresolved : ∀ i, i < string.length → resolvesAt table string i = none)
    (hfuel : string.count '$' < fuel) :
    replaceString fuel table string = some string := by
  have hlog := replaceStringFromLog_of_unresolved table fuel [] string
    (fun i _ => by
      by_cases hi : i < string.length
      · simpa using hunresolved i hi
      · simpa using resolvesAt_of_length_le table string i (by omega))
    hfuel
  rw [replaceString, ← replaceStringFromLog_fst]
  simp only [List.nil_append, List.length_nil] at hlog
  rw [hlog]
  rfl

/-- C13 on the strings "cost: $", "no marker" and "$a and $b", with no symbol bound. -/
theorem replaceString_of_unresolved_witness :
    (∀ i, i < "cost: $".toList.length → resolvesAt SymbolTable_Create "cost: $".toList i = none) ∧
    replaceString 2 SymbolTable_Create "cost: $".toList = some "cost: $".toList ∧
    replaceString 1 SymbolTable_Create "no marker".toList = some "no marker".toList ∧
    replaceString 3 SymbolTable_Create "$a and $b".toList = some "$a and $b".toList :=
  ⟨by decide,
    replaceString_of_unresolved SymbolTable_Create 2 "cost: $".toList (by decide) (by decide),
    replaceString_of_unresolved SymbolTable_Create 1 "no marker".toList (by decide) (by decide),
    replaceString_of_unresolved SymbolTable_Create 3 "$a and $b".toList (by decide) (by decide)⟩

/-- C14: for a string `p ++ "$" ++ n ++ r` in which `n` is the alphanumeric run after that
marker and is bound to `v`, and no reference of `p` resolves, the substitution with the fuel for
the markers of `p` and one replacement more is the substitution, with the fuel left, of the
whole new string `p ++ v ++ r`; the replacement made first is the one of that marker. -/
theorem replaceString_of_leftmost (table : SymbolTable) (fuel : Nat) (p n r v : Str)
    (hrun : lengthOfSymbol (n ++ r) = n.length) (hbound : table n = some v)
    (hunresolved : ∀ i, i < p.length →
      resolvesAt table (p ++ "$".toList ++ n ++ r) i = none) :
    replaceString (fuel + p.count '$' + 1) table (p ++ "$".toList ++ n ++ r) =
      replaceString fuel table (p ++ v ++ r) ∧
    replaceStringFromLog (fuel + p.count '$' + 1) table (p ++ "$".toList ++ n ++ r) 0 =
      (replaceStringFromLog fuel table (p ++ v ++ r) 0).map
        (fun x => (x.1, (p.length, n.length, v) :: x.2)) := by
  have hstring : p ++ "$".toList ++ n ++ r = [] ++ p ++ '$' :: (n ++ r) := by
    show p ++ ['$'] ++ n ++ r = _
    simp
  have hlog := replaceStringFromLog_of_leftmost table fuel [] p n r v hrun hbound
    (fun i _ hi => by
      rw [← hstring]
      exact hunresolved i (by simpa using hi))
  simp only [List.length_nil] at hlog
  rw [← hstring] at hlog
  simp only [List.nil_append] at hlog
  refine ⟨?_, hlog⟩
  rw [replaceString, replaceString, ← replaceStringFromLog_fst, ← replaceStringFromLog_fst, hlog,
    Option.map_map]
  rfl

/-- C14 on the chained binding (`a` bound to "$b", `b` to "x") and on the joined reference
(`b` bound to "bc", `abc` to "Z", `a` unbound). -/
theorem replaceString_of_leftmost_witness :
    (replaceString 3 chainTable "$a".toList = replaceString 2 chainTable "$b".toList ∧
      replaceString 3 chainTable "$a".toList = some "x".toList) ∧
    (∀ i, i < "$a".toList.length →
      resolvesAt joinTable ("$a".toList ++ "$".toList ++ "b".toList ++ []) i = none) ∧
    (replaceString 4 joinTable "$a$b".toList = replaceString 2 joinTable "$abc".toList ∧
      replaceString 4 joinTable "$a$b".toList = some "Z".toList) :=
  ⟨⟨(replaceString_of_leftmost chainTable 2 [] "a".toList [] "$b".toList (by decide) (by decide)
      (by decide)).1, by decide⟩,
    by decide,
    ⟨(replaceString_of_leftmost joinTable 2 "$a".toList "b".toList [] "bc".toList (by decide)
      (by decide) (by decide)).1, by decide⟩⟩

/-- C15: `replaceSymbols` yields the list of the rewritten elements, in order: it returns when
the rewriting of every element returns, the list it returns has the length of the list given
and holds at each index the rewritten element of that index; an element the codec does not
decode is rewritten by `replaceString`, an element that decodes as a list by the encoding of
what `replaceSymbols` yields for that list; a list of plain strings becomes the list of their
substitutions. -/
theorem replaceSymbols_elementwise (fuel : Nat) (lib : SlimLib) (table : SymbolTable)
    (list : SlimList) :
    replaceSymbols (fuel + 1) lib table list = list.mapM (replaceElement fuel lib table) ∧
    (∀ out : SlimList, replaceSymbols (fuel + 1) lib table list = some out →
      SlimList_GetLength out = SlimList_GetLength list ∧
      ∀ i, i < list.length → (list[i]?).bind (replaceElement fuel lib table) = out[i]?) ∧
    (∀ element : Str, lib.Deserialize element = none →
      replaceElement fuel lib table element = replaceString fuel table element) ∧
    (∀ (element : Str) (embeddedList : SlimList),
      lib.Deserialize element = some embeddedList →
      replaceElement fuel lib table element =
        (replaceSymbols fuel lib table embeddedList).map lib.Serialize) ∧
    ((∀ element ∈ list, lib.Deserialize element = none) →
      replaceSymbols (fuel + 1) lib table list = list.mapM (replaceString fuel table)) := by
  have hstep : (fun (list : SlimList) (i : Nat) =>
      match lib.Deserialize (SlimList_GetStringAt lib list i) with
      | none =>
        (replaceString fuel table (SlimList_GetStringAt lib list i)).map
          (fun replacedString => SlimList_ReplaceAt list i replacedString)
      | some embeddedList =>
        (replaceSymbols fuel lib table embeddedList).map
          (fun replacedList => SlimList_ReplaceAt list i (lib.Serialize replacedList))) =
      (fun (list : SlimList) (i : Nat) =>
        (replaceElement fuel lib table (list.getD i lib.nullString)).map
          (fun replaced => list.set i replaced)) := by
    funext current i
    simp only [replaceElement, SlimList_GetStringAt, SlimList_ReplaceAt]
    cases lib.Deserialize (current.getD i lib.nullString) with
    | none => rfl
    | some embeddedList => simp [Option.map_map, Function.comp_def]
  have hmap : replaceSymbols (fuel + 1) lib table list =
      list.mapM (replaceElement fuel lib table) := by
    have hloop := foldlM_set_eq_mapM (replaceElement fuel lib table) lib.nullString [] list
    simp only [List.length_nil, List.nil_append] at hloop
    have hsource : replaceSymbols (fuel + 1) lib table list =
        (List.range' 0 list.length).foldlM
          (fun (list : SlimList) (i : Nat) =>
            (replaceElement fuel lib table (list.getD i lib.nullString)).map
              (fun replaced => list.set i replaced)) list := by
      simp only [replaceSymbols, SlimList_GetLength, List.range_eq_range']
      exact congrArg (fun step => List.foldlM step list (List.range' 0 list.length)) hstep
    rw [hsource, hloop]
    cases list.mapM (replaceElement fuel lib table) <;> rfl
  refine ⟨hmap, ?_, ?_, ?_, ?_⟩
  · intro out hout
    rw [hmap] at hout
    exact mapM_some_elements _ list out hout
  · intro element hplain
    simp only [replaceElement, hplain]
  · intro element embeddedList hlist
    simp only [replaceElement, hlist]
  · intro hplain
    rw [hmap]
    clear hmap
    induction list with
    | nil => rfl
    | cons element rest ih =>
      have helement : replaceElement fuel lib table element =
          replaceString fuel table element := by
        simp only [replaceElement, hplain element (by simp)]
      simp only [List.mapM_cons, helement,
        ih (fun e he => hplain e (List.mem_cons_of_mem _ he))]

/-- C15 on a list of a plain string with a chained reference, a nested list and a plain
string without reference, `a` being bound to "$b" and `b` to "x". -/
theorem replaceSymbols_elementwise_witness :
    replaceSymbols 4 bracketLib chainTable (tokens ["$a", "[$b", "plain"]) =
      some (tokens ["x", "[x", "plain"]) ∧
    (tokens ["$a", "[$b", "plain"]).mapM (replaceElement 3 bracketLib chainTable) =
      some (tokens ["x", "[x", "plain"]) ∧
    (∀ element ∈ tokens ["$a", "plain"], plainLib.Deserialize element = none) ∧
    replaceSymbols 4 plainLib chainTable (tokens ["$a", "plain"]) =
      (tokens ["$a", "plain"]).mapM (replaceString 3 chainTable) :=
  ⟨by decide,
    ((replaceSymbols_elementwise 3 bracketLib chainTable (tokens ["$a", "[$b", "plain"])).1.symm.trans
      (by decide)),
    by decide,
    (replaceSymbols_elementwise 3 plainLib chainTable (tokens ["$a", "plain"])).2.2.2.2
      (by decide)⟩

/-- The shape of the failure texts: every failure text the statement executor formats begins
with the sentinel, for all inputs. The texts of `StatementExecutor_FixtureError`, of
`StatementExecutor_Make` for an unknown class and of `StatementExecutor_Call` for an unknown
instance end with the closing brackets for all inputs. The text of a failed constructor ends
with them when class name and note, each cut to 32 characters, have at most 62 characters
together, and the text of an unknown method when method name and fixture name, each cut to 32
characters, and the digits of the argument count have at most 70 characters together. -/
theorem exception_texts_shape {σ : Type} (fuel : Nat) (lib : SlimLib)
    (executor : StatementExecutor σ) (instanceName className methodName message : Str)
    (args : SlimList) :
    (exceptionTag <+: StatementExecutor_FixtureError message ∧
      ">>".toList <:+ StatementExecutor_FixtureError message) ∧
    (findFixture executor className = none →
      ∃ r, StatementExecutor_Make fuel lib executor instanceName className args = some r ∧
        exceptionTag <+: r.1 ∧ ">>".toList <:+ r.1) ∧
    (GetInstanceNode executor instanceName = none →
      ∃ r, StatementExecutor_Call fuel lib executor instanceName methodName args = some r ∧
        exceptionTag <+: r.1 ∧ ">>".toList <:+ r.1) ∧
    (∀ (fixtureNode : FixtureNode σ) (substituted : SlimList),
      findFixture executor className = some fixtureNode →
      replaceSymbols fuel lib executor.symbolTable args = some substituted →
      (fixtureNode.constructor executor.heap substituted).instancePtr = none →
      ∃ r, StatementExecutor_Make fuel lib executor instanceName className args = some r ∧
        exceptionTag <+: r.1 ∧
        ((precision32 className).length +
          (precision32 ((fixtureNode.constructor executor.heap
            substituted).constructorError.getD [])).length ≤ 62 →
          ">>".toList <:+ r.1)) ∧
    (∀ (instanceNode : InstanceNode) (fixture : FixtureNode σ),
      GetInstanceNode executor instanceName = some instanceNode →
      findFixture executor instanceNode.fixture = some fixture →
      findMethod fixture.methods methodName = none →
      ∃ r, StatementExecutor_Call fuel lib executor instanceName methodName args = some r ∧
        exceptionTag <+: r.1 ∧
        ((precision32 methodName).length + (decimal args.length).length +
          (precision32 fixture.name).length ≤ 70 →
          ">>".toList <:+ r.1)) := by
  have h1 : exceptionTag.length = 24 := rfl
  have h2 : ".>>".toList.length = 3 := rfl
  refine ⟨⟨?_, ?_⟩, ?_, ?_, ?_, ?_⟩
  · simp only [StatementExecutor_FixtureError, List.append_assoc]
    exact exceptionTag_kept 128 _ (by omega)
  · apply closing_kept
    simp only [List.length_append, List.length_take, h1, h2]
    omega
  · intro hunknown
    obtain ⟨r, hmake, htext⟩ := StatementExecutor_Make_of_unknown fuel lib executor instanceName
      className args hunknown
    refine ⟨r, hmake, ?_, ?_⟩
    · rw [htext]
      simp only [List.append_assoc]
      exact exceptionTag_kept 120 _ (by omega)
    · rw [htext]
      apply closing_kept
      have h3 : "NO_CLASS ".toList.length = 9 := rfl
      have h4 := precision32_length_le className
      simp only [List.length_append, h1, h2, h3]
      omega
  · intro hnone
    obtain ⟨r, hcall, htext⟩ := StatementExecutor_Call_of_no_instance fuel lib executor
      instanceName methodName args hnone
    refine ⟨r, hcall, ?_, ?_⟩
    · rw [htext]
      simp only [List.append_assoc]
      exact exceptionTag_kept 120 _ (by omega)
    · rw [htext]
      apply closing_kept
      have h3 : "NO_INSTANCE ".toList.length = 12 := rfl
      have h4 := precision32_length_le instanceName
      simp only [List.length_append, h1, h2, h3]
      omega
  · intro fixtureNode substituted hfind hsub hnull
    obtain ⟨r, hmake, htext⟩ := StatementExecutor_Make_of_failed fuel lib executor instanceName
      className args substituted fixtureNode hfind hsub hnull
    refine ⟨r, hmake, ?_, ?_⟩
    · rw [htext]
      simp only [List.append_assoc]
      exact exceptionTag_kept 120 _ (by omega)
    · intro hshort
      rw [htext]
      apply closing_kept
      have h3 : "COULD_NOT_INVOKE_CONSTRUCTOR ".toList.length = 29 := rfl
      have h4 : " ".toList.length = 1 := rfl
      simp only [List.length_append, h1, h2, h3, h4]
      omega
  · intro instanceNode fixture hinstance hfixture hmethod
    have hcall := StatementExecutor_Call_of_no_method fuel lib executor instanceName methodName
      args instanceNode fixture hinstance hfixture hmethod
    refine ⟨_, hcall, ?_, ?_⟩
    · simp only [List.append_assoc]
      exact exceptionTag_kept 120 _ (by omega)
    · intro hshort
      apply closing_kept
      have h3 : "NO_METHOD_IN_CLASS ".toList.length = 19 := rfl
      have h4 : "[".toList.length = 1 := rfl
      have h5 : "] ".toList.length = 2 := rfl
      simp only [precision32] at hshort
      simp only [List.length_append, h1, h2, h3, h4, h5]
      omega

/-- The shape of the failure texts of a fixture error, of an unknown class and of the failed
constructor of ExceptionsExample. -/
theorem exception_texts_shape_witness :
    (exceptionTag <+: StatementExecutor_FixtureError "You stink".toList ∧
      ">>".toList <:+ StatementExecutor_FixtureError "You stink".toList) ∧
    findFixture exampleExecutor "Bogus".toList = none ∧
    (∃ r, StatementExecutor_Make 1 plainLib exampleExecutor "x".toList "Bogus".toList [] =
        some r ∧ exceptionTag <+: r.1 ∧ ">>".toList <:+ r.1) ∧
    (∃ r, StatementExecutor_Make 1 plainLib exampleExecutor "x".toList
        "ExceptionsExample".toList [] = some r ∧ exceptionTag <+: r.1 ∧
      ((precision32 "ExceptionsExample".toList).length +
          (precision32 "One arg required".toList).length ≤ 62 →
        ">>".toList <:+ r.1)) :=
  ⟨(exception_texts_shape 1 plainLib exampleExecutor "x".toList "Bogus".toList [] "You stink".toList
      []).1,
    rfl,
    (exception_texts_shape 1 plainLib exampleExecutor "x".toList "Bogus".toList []
      "You stink".toList []).2.1 rfl,
    (exception_texts_shape 1 plainLib exampleExecutor "x".toList "ExceptionsExample".toList []
      "You stink".toList []).2.2.2.1
      { constructor := ExceptionsExample_Create, destructor := ExceptionsExample_Destroy,
        methods := [{ name := "setTrouble".toList, method := setTrouble }],
        name := "ExceptionsExample".toList } [] rfl rfl rfl⟩

/-- C16: evaluation at a failed make with a class name and a constructor note of 32 characters
each. The text has 121 characters, the 120-character buffer keeps 119 of them, and the result
of `StatementExecutor_Make` ends with the full stop: the closing brackets are cut off. -/
theorem StatementExecutor_Make_cuts_closing :
    longClassName.length = 32 ∧
    (exactNoteCreate 0 []).constructorError.map List.length = some 32 ∧
    (StatementExecutor_Make 1 plainLib longNoteExecutor "i".toList longClassName []).map
        Prod.fst =
      some "__EXCEPTION__:message:<<COULD_NOT_INVOKE_CONSTRUCTOR ClassNameOfThirtyTwoCharacters01 NoteOfThirtyTwoCharactersExactly.".toList ∧
    ¬ (∃ r, StatementExecutor_Make 1 plainLib longNoteExecutor "i".toList longClassName [] =
        some r ∧ ">>".toList <:+ r.1) := by
  have htext : (StatementExecutor_Make 1 plainLib longNoteExecutor "i".toList longClassName
      []).map Prod.fst =
      some "__EXCEPTION__:message:<<COULD_NOT_INVOKE_CONSTRUCTOR ClassNameOfThirtyTwoCharacters01 NoteOfThirtyTwoCharactersExactly.".toList := by
    decide
  refine ⟨by decide, by decide, htext, ?_⟩
  rintro ⟨r, hmake, hsuffix⟩
  rw [hmake] at htext
  simp only [Option.map_some', Option.some.injEq] at htext
  rw [htext] at hsuffix
  exact absurd hsuffix (by decide)

/-- C17: for every string, every symbol table and every fuel, the scan the specification
describes, which resumes after an unresolved name, and the scan of `replaceStringFrom`, which
resumes right after the marker, return the same string after the same replacements, or both
run out of the fuel. -/
theorem specSubstituteFrom_agrees (table : SymbolTable) (fuel : Nat) (string : Str) :
    specSubstituteFrom fuel table string 0 = replaceStringFromLog fuel table string 0 ∧
    (specSubstituteFrom fuel table string 0).map Prod.fst = replaceString fuel table string := by
  have hsame : specSubstituteFrom fuel table string 0 =
      replaceStringFromLog fuel table string 0 := by
    have := specSubstituteFrom_eq_replaceStringFromLog table fuel [] [] string (by simp)
    simpa using this
  refine ⟨hsame, ?_⟩
  rw [hsame, replaceString, replaceStringFromLog_fst]

/-- C18: when no bound value holds the marker, `replaceString` returns for every fuel from
`rescanBound (m + 1)` on, `m` being the number of markers of the string, and it makes at most
`m` replacements; with `a` bound to "$a", `replaceString` of "$a" returns for no fuel. -/
theorem replaceString_returns (table : SymbolTable) (string : Str) (fuel : Nat)
    (hfree : ∀ (name v : Str), table name = some v → '$' ∉ v)
    (hfuel : rescanBound (string.count '$' + 1) ≤ fuel) :
    (∃ (result : Str) (log : List Replacement),
      replaceStringFromLog fuel table string 0 = some (result, log) ∧
      replaceString fuel table string = some result ∧
      log.length ≤ string.count '$') ∧
    ∀ anyFuel : Nat, replaceString anyFuel selfTable "$a".toList = none := by
  refine ⟨?_, ?_⟩
  · obtain ⟨result, log, hreturns, hlog⟩ :=
      replaceStringFromLog_returns table hfree fuel [] string (by
        simp only [List.nil_append]
        exact hfuel)
    simp only [List.nil_append, List.length_nil] at hreturns hlog
    refine ⟨result, log, hreturns, ?_, hlog⟩
    rw [replaceString, ← replaceStringFromLog_fst, hreturns]
    rfl
  · intro anyFuel
    rw [replaceString, ← replaceStringFromLog_fst, replaceStringFromLog_selfTable]
    rfl

/-- C18 on the string "$a$b" with `b` bound to "bc" and `abc` to "Z": two markers, fuel 6. -/
theorem replaceString_returns_witness :
    (∀ (name v : Str), joinTable name = some v → '$' ∉ v) ∧
    rescanBound ("$a$b".toList.count '$' + 1) ≤ 6 ∧
    (∃ (result : Str) (log : List Replacement),
      replaceStringFromLog 6 joinTable "$a$b".toList 0 = some (result, log) ∧
      replaceString 6 joinTable "$a$b".toList = some result ∧
      log.length ≤ "$a$b".toList.count '$') ∧
    replaceStringFromLog 6 joinTable "$a$b".toList 0 =
      some ("Z".toList, [(2, 1, "bc".toList), (0, 3, "Z".toList)]) :=
  have hfree : ∀ (name v : Str), joinTable name = some v → '$' ∉ v := by
    intro name v h
    simp only [joinTable, SymbolTable_SetSymbol, SymbolTable_Create] at h
    split at h
    · cases h
      decide
    · split at h
      · cases h
        decide
      · cases h
  ⟨hfree, by decide,
    (replaceString_returns joinTable "$a$b".toList 6 hfree (by decide)).1, by decide⟩

/-- C19: when `replaceString` returns a string, no marker of that string is followed by a
bound name, and `replaceString` returns that string unchanged as soon as the fuel exceeds the
number of its markers. -/
theorem replaceString_idempotent (table : SymbolTable) (fuel : Nat) (string result : Str)
    (hreturns : replaceString fuel table string = some result) :
    (∀ i, resolvesAt table result i = none) ∧
    ∀ again : Nat, result.count '$' < again → replaceString again table result = some result := by
  have hlog : ∃ log, replaceStringFromLog fuel table ([] ++ string) ([] : Str).length =
      some (result, log) := by
    rw [replaceString, ← replaceStringFromLog_fst] at hreturns
    simp only [Option.map_eq_some'] at hreturns
    obtain ⟨⟨result2, log⟩, hinner, hresult⟩ := hreturns
    simp only at hresult
    subst hresult
    exact ⟨log, hinner⟩
  obtain ⟨log, hlog⟩ := hlog
  have hunresolved := replaceStringFromLog_result_unresolved table fuel [] string result log
    (fun i hi => absurd hi (by simp)) hlog
  refine ⟨hunresolved, ?_⟩
  intro again hagain
  have hsame := replaceStringFromLog_of_unresolved table again [] result
    (fun i _ => by simpa using hunresolved i) hagain
  simp only [List.nil_append, List.length_nil] at hsame
  rw [replaceString, ← replaceStringFromLog_fst, hsame]
  rfl

/-- C19 on "$a and $c" with `a` bound to "$b" and `b` to "x": the result "x and $c" is returned
unchanged. -/
theorem replaceString_idempotent_witness :
    replaceString 4 chainTable "$a and $c".toList = some "x and $c".toList ∧
    (∀ i, resolvesAt chainTable "x and $c".toList i = none) ∧
    replaceString 2 chainTable "x and $c".toList = some "x and $c".toList :=
  ⟨by decide,
    (replaceString_idempotent chainTable 4 "$a and $c".toList "x and $c".toList (by decide)).1,
    (replaceString_idempotent chainTable 4 "$a and $c".toList "x and $c".toList (by decide)).2 2
      (by decide)⟩

/-- C20 (amended): for a string, a marker found in it from any scan position, the name length
`lengthOfSymbol` computes after the marker and any value, marker and name lie inside the
string and, when the lengths of string and value together are below 2147483648 and so fit an
`int`, `bufferLength` is positive and is 1 more than the length of the text before the marker
followed by the value and by the text after the name. -/
theorem bufferLength_exact (string symbolValue : Str) (start offset : Nat)
    (hfound : strpbrk "$".toList (string.drop start) = some offset)
    (hfits : string.length + symbolValue.length < 2147483648) :
    start + offset + 1 + lengthOfSymbol (string.drop (start + offset + 1)) ≤ string.length ∧
    0 < bufferLength string symbolValue (lengthOfSymbol (string.drop (start + offset + 1))) ∧
    bufferLength string symbolValue (lengthOfSymbol (string.drop (start + offset + 1))) =
      ((string.take (start + offset) ++ symbolValue ++
        string.drop (start + offset + 1 +
          lengthOfSymbol (string.drop (start + offset + 1)))).length : Int) + 1 := by
  have hoffset := strpbrk_lt_length _ _ _ hfound
  have hname := lengthOfSymbol_le (string.drop (start + offset + 1))
  simp only [List.length_drop] at hoffset hname
  have hinside : start + offset + 1 + lengthOfSymbol (string.drop (start + offset + 1)) ≤
      string.length := by omega
  generalize lengthOfSymbol (string.drop (start + offset + 1)) = length at hname hinside ⊢
  have hvalue : toInt (symbolValue.length : Int) = symbolValue.length :=
    toInt_of_range _ (by omega) (by omega)
  have hlength : toInt (length : Int) = length := toInt_of_range _ (by omega) (by omega)
  have hwhole : bufferLength string symbolValue length =
      (string.length : Int) + symbolValue.length - (length + 1) + 1 := by
    simp only [bufferLength, hvalue, hlength]
    exact toInt_of_range _ (by omega) (by omega)
  refine ⟨hinside, ?_, ?_⟩
  · rw [hwhole]
    omega
  · rw [hwhole]
    simp only [List.length_append, List.length_take, List.length_drop]
    omega

/-- C20 (amended) on the string "a$bc d" with the value "xyz": the marker at offset 1, the
name "bc", a buffer of 7. -/
theorem bufferLength_exact_witness :
    strpbrk "$".toList ("a$bc d".toList.drop 0) = some 1 ∧
    0 + 1 + 1 + lengthOfSymbol ("a$bc d".toList.drop (0 + 1 + 1)) ≤ "a$bc d".toList.length ∧
    0 < bufferLength "a$bc d".toList "xyz".toList
      (lengthOfSymbol ("a$bc d".toList.drop (0 + 1 + 1))) ∧
    bufferLength "a$bc d".toList "xyz".toList
        (lengthOfSymbol ("a$bc d".toList.drop (0 + 1 + 1))) =
      (("a$bc d".toList.take (0 + 1) ++ "xyz".toList ++
        "a$bc d".toList.drop (0 + 1 + 1 +
          lengthOfSymbol ("a$bc d".toList.drop (0 + 1 + 1)))).length : Int) + 1 :=
  ⟨by decide, bufferLength_exact "a$bc d".toList "xyz".toList 0 1 (by decide) (by decide)⟩

/-- C20 as stated fails on a value of 2147483648 characters: for the string "$", whose marker
at offset 0 has the empty name, `valueLength` and `bufferLength` wrap around in their `int`
variables and `bufferLength` is -2147483647, not positive and not 1 more than the 2147483648
characters of the text assembled. -/
theorem bufferLength_wraps :
    strpbrk "$".toList ("$".toList.drop 0) = some 0 ∧
    lengthOfSymbol ("$".toList.drop (0 + 0 + 1)) = 0 ∧
    bufferLength "$".toList (List.replicate 2147483648 'x') 0 = -2147483647 ∧
    ¬ 0 < bufferLength "$".toList (List.replicate 2147483648 'x') 0 ∧
    bufferLength "$".toList (List.replicate 2147483648 'x') 0 ≠
      (("$".toList.take (0 + 0) ++ List.replicate 2147483648 'x' ++
        "$".toList.drop (0 + 0 + 1 + 0)).length : Int) + 1 := by
  have hbuffer : bufferLength "$".toList (List.replicate 2147483648 'x') 0 = -2147483647 := by
    simp only [bufferLength, toInt, List.length_replicate]
    decide
  refine ⟨by decide, by decide, hbuffer, ?_, ?_⟩
  · rw [hbuffer]
    decide
  · rw [hbuffer]
    simp only [List.length_append, List.length_replicate]
    have h1 : ("$".toList.take (0 + 0)).length = 0 := rfl
    have h2 : ("$".toList.drop (0 + 0 + 1 + 0)).length = 0 := rfl
    rw [h1, h2]
    decide

end CSlim
